import Mathlib

/-!
Verification of the discovery / taxonomy-inference / config-synthesis engine
of `tools/victron_mqtt_explorer.py`.

The Python program is shallowly embedded:
* Python runtime values that can result from `json.loads` are modelled by `PyVal`;
* `bytes.decode('utf-8')` (strict and `errors='replace'`) is modelled over `List Nat`;
* `json.loads` is modelled by a recursive-descent parser faithful to CPython's
  `json` module defaults (including acceptance of `NaN`/`Infinity`/`-Infinity`);
* Python `dict`s (insertion ordered) are modelled as association lists, Python
  `set`s as duplicate-free lists (first-insertion order; every place the source
  iterates a set it first sorts it, except where noted);
* `datetime.now()` is modelled by an explicit timestamp argument;
* exceptions are modelled by an explicit error result.
-/

namespace Victron

/-- A Python runtime value as producible by `json.loads` (plus `None` from
`dict.get` misses).  Floats never participate in arithmetic in the source, so a
float is carried as its JSON lexeme. -/
inductive PyVal where
  | vNone : PyVal
  | vBool : Bool → PyVal
  | vInt : Int → PyVal
  | vFloat : String → PyVal
  | vStr : String → PyVal
  | vList : List PyVal → PyVal
  | vDict : List (String × PyVal) → PyVal

/-- Python `type(value).__name__` for the values above. -/
def pyTypeName : PyVal → String
  | .vNone => "NoneType"
  | .vBool _ => "bool"
  | .vInt _ => "int"
  | .vFloat _ => "float"
  | .vStr _ => "str"
  | .vList _ => "list"
  | .vDict _ => "dict"

/-! ### Collection helpers: Python `set` and `dict` as ordered structures -/

/-- Python `set.add`: contents of a set, kept as a duplicate-free list in
first-insertion order. -/
def setAdd {α : Type} [DecidableEq α] (l : List α) (a : α) : List α :=
  if a ∈ l then l else l ++ [a]

/-- Python `dict` lookup (`d[k]` / `d.get(k)` hit). -/
def alookup {α : Type} : List (String × α) → String → Option α
  | [], _ => none
  | p :: ps, k => if p.1 = k then some p.2 else alookup ps k

/-- Python `d[k] = v`: update in place (keeping the key's position) or append. -/
def aset {α : Type} : List (String × α) → String → α → List (String × α)
  | [], k, v => [(k, v)]
  | p :: ps, k, v => if p.1 = k then (k, v) :: ps else p :: aset ps k v

/-- Python `defaultdict(set)`: `d[k].add(v)`. -/
def msetAdd : List (String × List String) → String → String → List (String × List String)
  | [], k, v => [(k, [v])]
  | p :: ps, k, v => if p.1 = k then (k, setAdd p.2 v) :: ps else p :: msetAdd ps k v

/-- Python `defaultdict(lambda: defaultdict(set))`: `d[k1][k2].add(v)`. -/
def mmeasAdd : List (String × List (String × List String)) → String → String → String →
    List (String × List (String × List String))
  | [], k1, k2, v => [(k1, [(k2, [v])])]
  | p :: ps, k1, k2, v =>
    if p.1 = k1 then (k1, msetAdd p.2 k2 v) :: ps else p :: mmeasAdd ps k1 k2 v

/-- Python `defaultdict(list)`: `d[k].append(v)`. -/
def mlistAppend {β : Type} : List (String × List β) → String → β → List (String × List β)
  | [], k, v => [(k, [v])]
  | p :: ps, k, v => if p.1 = k then (k, p.2 ++ [v]) :: ps else p :: mlistAppend ps k v

/-- Keys of an association list, in insertion order (Python `dict.keys()`). -/
def akeys {α : Type} (l : List (String × α)) : List String := l.map Prod.fst

/-- Reading `d[k]` on a `defaultdict(set)` without mutating: the stored
instance set, empty when absent. -/
def instOf (m : List (String × List String)) (k : String) : List String :=
  match alookup m k with
  | some s => s
  | none => []

/-- Reading `d[k]` on the nested measurement map: the stored field-path map,
empty when absent. -/
def pathsOf (ms : List (String × List (String × List String))) (d : String) :
    List (String × List String) :=
  match alookup ms d with
  | some p => p
  | none => []

/-- The kind-tag set stored for `(d, p)` in the measurement map (empty when
absent). -/
def kindsOf (ms : List (String × List (String × List String))) (d p : String) :
    List String :=
  instOf (pathsOf ms d) p

/-! ### Python string primitives used by the source -/

/-- Accumulator loop for `str.split('/')`: adjacent separators yield empty
segments, exactly as in Python. -/
def splitSlashAux : List Char → List Char → List (List Char)
  | [], acc => [acc.reverse]
  | c :: cs, acc =>
    if c = '/' then acc.reverse :: splitSlashAux cs []
    else splitSlashAux cs (c :: acc)

/-- Python `topic.split('/')`. -/
def pySplit (t : String) : List String := (splitSlashAux t.data []).map String.mk

/-- Python `s.upper()` (the identifiers upper-cased here are ASCII). -/
def pyUpper (s : String) : String := String.mk (s.data.map Char.toUpper)

/-! ### UTF-8 decoding (`bytes.decode('utf-8')`, strict and `errors='replace'`) -/

/-- Is `b` a UTF-8 continuation byte (`0x80..0xBF`)? -/
def contB (b : Nat) : Bool := 0x80 ≤ b && b ≤ 0xBF

/-- Decode one UTF-8 sequence from the head of `l`.  Returns the decoded
character and the number of bytes consumed, or `none` together with the length
of the maximal subpart consumed (CPython's replacement granularity). -/
def utf8Step : List Nat → Option Char × Nat
  | [] => (none, 1)
  | b :: rest =>
    if b ≤ 0x7F then (some (Char.ofNat b), 1)
    else if 0xC2 ≤ b && b ≤ 0xDF then
      match rest with
      | c1 :: _ =>
        if contB c1 then (some (Char.ofNat ((b - 0xC0) * 0x40 + (c1 - 0x80))), 2)
        else (none, 1)
      | [] => (none, 1)
    else if 0xE0 ≤ b && b ≤ 0xEF then
      -- 0xE0 forbids overlong encodings, 0xED forbids surrogates
      let lo := if b = 0xE0 then 0xA0 else 0x80
      let hi := if b = 0xED then 0x9F else 0xBF
      match rest with
      | c1 :: rest2 =>
        if lo ≤ c1 && c1 ≤ hi then
          match rest2 with
          | c2 :: _ =>
            if contB c2 then
              (some (Char.ofNat ((b - 0xE0) * 0x1000 + (c1 - 0x80) * 0x40 + (c2 - 0x80))), 3)
            else (none, 2)
          | [] => (none, 2)
        else (none, 1)
      | [] => (none, 1)
    else if 0xF0 ≤ b && b ≤ 0xF4 then
      -- 0xF0 forbids overlong encodings, 0xF4 caps at U+10FFFF
      let lo := if b = 0xF0 then 0x90 else 0x80
      let hi := if b = 0xF4 then 0x8F else 0xBF
      match rest with
      | c1 :: rest2 =>
        if lo ≤ c1 && c1 ≤ hi then
          match rest2 with
          | c2 :: rest3 =>
            if contB c2 then
              match rest3 with
              | c3 :: _ =>
                if contB c3 then
                  (some (Char.ofNat ((b - 0xF0) * 0x40000 + (c1 - 0x80) * 0x1000 +
                    (c2 - 0x80) * 0x40 + (c3 - 0x80))), 4)
                else (none, 3)
              | [] => (none, 3)
            else (none, 2)
          | [] => (none, 2)
        else (none, 1)
      | [] => (none, 1)
    else (none, 1)

/-- Strict UTF-8 decoding of a byte list; `none` models `UnicodeDecodeError`.
The fuel argument is the list length, which bounds the number of steps. -/
def utf8DecodeAux : Nat → List Nat → Option (List Char)
  | _, [] => some []
  | 0, _ :: _ => none
  | fuel + 1, l =>
    match utf8Step l with
    | (some c, n) => (utf8DecodeAux fuel (l.drop n)).map (fun cs => c :: cs)
    | (none, _) => none

/-- `bytes.decode('utf-8')` (strict). -/
def utf8Decode (l : List Nat) : Option String :=
  (utf8DecodeAux l.length l).map (fun cs => String.mk cs)

/-- Auxiliary loop for `errors='replace'` decoding. -/
def utf8ReplaceAux : Nat → List Nat → List Char
  | _, [] => []
  | 0, _ :: _ => []
  | fuel + 1, l =>
    match utf8Step l with
    | (some c, n) => c :: utf8ReplaceAux fuel (l.drop n)
    | (none, n) => Char.ofNat 0xFFFD :: utf8ReplaceAux fuel (l.drop n)

/-- `bytes.decode('utf-8', errors='replace')`: never fails, substitutes U+FFFD
for each maximal invalid subpart. -/
def utf8ReplaceDecode (l : List Nat) : String :=
  String.mk (utf8ReplaceAux l.length l)

/-! ### `json.loads` (CPython defaults) -/

/-- JSON whitespace (CPython: space, tab, newline, carriage return). -/
def skipWs (l : List Char) : List Char :=
  l.dropWhile (fun c => c == ' ' || c == '\t' || c == '\n' || c == '\r')

/-- One hex digit of a `\uXXXX` escape. -/
def parseHexDigit (c : Char) : Option Nat :=
  if '0' ≤ c ∧ c ≤ '9' then some (c.toNat - 48)
  else if 'a' ≤ c ∧ c ≤ 'f' then some (c.toNat - 87)
  else if 'A' ≤ c ∧ c ≤ 'F' then some (c.toNat - 55)
  else none

/-- Four hex digits of a `\uXXXX` escape. -/
def parseHex4 : List Char → Option (Nat × List Char)
  | a :: b :: c :: d :: rest =>
    match parseHexDigit a, parseHexDigit b, parseHexDigit c, parseHexDigit d with
    | some x, some y, some z, some w => some (x * 4096 + y * 256 + z * 16 + w, rest)
    | _, _, _, _ => none
  | _ => none

/-- Match a literal tail (e.g. `rue` of `true`), returning the remainder. -/
def stripL : List Char → List Char → Option (List Char)
  | [], l => some l
  | c :: cs, d :: ds => if c = d then stripL cs ds else none
  | _ :: _, [] => none

/-- Body of a JSON string after the opening quote.  Returns the decoded content
and the remainder after the closing quote.  Surrogate pairs in `\u` escapes are
combined as CPython does; a *lone* surrogate (which a Python `str` can carry
but a Lean `String` cannot) is replaced by U+FFFD — no claim depends on it. -/
def parseJStringAux : Nat → List Char → Option (List Char × List Char)
  | _, [] => none
  | 0, _ :: _ => none
  | fuel + 1, c :: rest =>
    if c = '"' then some ([], rest)
    else if c = '\\' then
      match rest with
      | [] => none
      | e :: rest2 =>
        let simple : Option Char :=
          if e = '"' then some '"'
          else if e = '\\' then some '\\'
          else if e = '/' then some '/'
          else if e = 'b' then some (Char.ofNat 8)
          else if e = 'f' then some (Char.ofNat 12)
          else if e = 'n' then some '\n'
          else if e = 'r' then some '\r'
          else if e = 't' then some '\t'
          else none
        match simple with
        | some d =>
          match parseJStringAux fuel rest2 with
          | some (cs, r) => some (d :: cs, r)
          | none => none
        | none =>
          if e = 'u' then
            match parseHex4 rest2 with
            | none => none
            | some (n, rest3) =>
              if 0xD800 ≤ n ∧ n ≤ 0xDBFF then
                -- high surrogate: try to combine with a following \uDC00-\uDFFF
                match rest3 with
                | '\\' :: 'u' :: rest4 =>
                  match parseHex4 rest4 with
                  | some (m, rest5) =>
                    if 0xDC00 ≤ m ∧ m ≤ 0xDFFF then
                      let combined := 0x10000 + (n - 0xD800) * 0x400 + (m - 0xDC00)
                      match parseJStringAux fuel rest5 with
                      | some (cs, r) => some (Char.ofNat combined :: cs, r)
                      | none => none
                    else
                      match parseJStringAux fuel rest3 with
                      | some (cs, r) => some (Char.ofNat 0xFFFD :: cs, r)
                      | none => none
                  | none =>
                    match parseJStringAux fuel rest3 with
                    | some (cs, r) => some (Char.ofNat 0xFFFD :: cs, r)
                    | none => none
                | _ =>
                  match parseJStringAux fuel rest3 with
                  | some (cs, r) => some (Char.ofNat 0xFFFD :: cs, r)
                  | none => none
              else if 0xDC00 ≤ n ∧ n ≤ 0xDFFF then
                match parseJStringAux fuel rest3 with
                | some (cs, r) => some (Char.ofNat 0xFFFD :: cs, r)
                | none => none
              else
                match parseJStringAux fuel rest3 with
                | some (cs, r) => some (Char.ofNat n :: cs, r)
                | none => none
          else none
    else if c.toNat < 0x20 then none    -- raw control characters rejected (strict=True)
    else
      match parseJStringAux fuel rest with
      | some (cs, r) => some (c :: cs, r)
      | none => none

/-- Decimal digit test. -/
def isDigitC (c : Char) : Bool := '0' ≤ c && c ≤ '9'

/-- The opening-brace character (U+007B). -/
def braceOpen : Char := Char.ofNat 123

/-- The closing-brace character (U+007D). -/
def braceClose : Char := Char.ofNat 125

/-- Digit list to `Nat`. -/
def digitsToNat (l : List Char) : Nat :=
  l.foldl (fun n c => n * 10 + (c.toNat - 48)) 0

/-- A JSON number, per CPython's `NUMBER_RE`:
`(-?(?:0|[1-9]\d*))(\.\d+)?([eE][-+]?\d+)?`.  An incomplete fraction or
exponent is not consumed (it is left as trailing input, as the regex does).
Integers (no fraction, no exponent) become `vInt`; otherwise the lexeme is
kept as a `vFloat`. -/
def parseNumber (l : List Char) : Option (PyVal × List Char) :=
  let negp : Bool := match l with | c :: _ => c = '-' | [] => false
  let l1 := if negp then l.tail else l
  match l1 with
  | [] => none
  | c :: rest =>
    if isDigitC c = false then none
    else
      let ip : List Char × List Char := if c = '0' then ([c], rest) else l1.span isDigitC
      let fp : List Char × List Char :=
        match ip.2 with
        | '.' :: r =>
          let ds := r.span isDigitC
          if ds.1 = [] then ([], ip.2) else ('.' :: ds.1, ds.2)
        | _ => ([], ip.2)
      let ep : List Char × List Char :=
        match fp.2 with
        | e :: r =>
          if e = 'e' ∨ e = 'E' then
            let sgn : List Char × List Char :=
              match r with
              | s :: r2 => if s = '+' ∨ s = '-' then ([s], r2) else ([], r)
              | [] => ([], r)
            let ds := sgn.2.span isDigitC
            if ds.1 = [] then ([], fp.2) else (e :: (sgn.1 ++ ds.1), ds.2)
          else ([], fp.2)
        | [] => ([], fp.2)
      if fp.1 = [] ∧ ep.1 = [] then
        let n := digitsToNat ip.1
        some (.vInt (if negp then -(n : Int) else (n : Int)), ip.2)
      else
        some (.vFloat (String.mk ((if negp then ['-'] else []) ++ ip.1 ++ fp.1 ++ ep.1)), ep.2)

mutual

/-- One JSON value (CPython scanner).  `NaN`, `Infinity`, `-Infinity` are
accepted, as CPython's defaults do. -/
def parseJValue : Nat → List Char → Option (PyVal × List Char)
  | 0, _ => none
  | fuel + 1, l =>
    match l with
    | [] => none
    | c :: rest =>
      if c = braceOpen then parseObjStart fuel rest
      else if c = '[' then parseArrStart fuel rest
      else if c = '"' then
        match parseJStringAux fuel rest with
        | some (cs, r) => some (.vStr (String.mk cs), r)
        | none => none
      else if c = 't' then
        match stripL ['r', 'u', 'e'] rest with
        | some r => some (.vBool true, r)
        | none => none
      else if c = 'f' then
        match stripL ['a', 'l', 's', 'e'] rest with
        | some r => some (.vBool false, r)
        | none => none
      else if c = 'n' then
        match stripL ['u', 'l', 'l'] rest with
        | some r => some (.vNone, r)
        | none => none
      else if c = 'N' then
        match stripL ['a', 'N'] rest with
        | some r => some (.vFloat "NaN", r)
        | none => none
      else if c = 'I' then
        match stripL ['n', 'f', 'i', 'n', 'i', 't', 'y'] rest with
        | some r => some (.vFloat "Infinity", r)
        | none => none
      else
        match parseNumber l with
        | some res => some res
        | none =>
          if c = '-' then
            match stripL ['I', 'n', 'f', 'i', 'n', 'i', 't', 'y'] rest with
            | some r => some (.vFloat "-Infinity", r)
            | none => none
          else none

/-- After an opening brace: an empty object or the first key. -/
def parseObjStart : Nat → List Char → Option (PyVal × List Char)
  | 0, _ => none
  | fuel + 1, l =>
    match skipWs l with
    | [] => none
    | c :: rest =>
      if c = braceClose then some (.vDict [], rest)
      else parseObjItems fuel [] (c :: rest)

/-- Key/value pairs of an object, positioned at a key string.  A duplicate key
overwrites the earlier value but keeps its position, as a Python dict does. -/
def parseObjItems : Nat → List (String × PyVal) → List Char → Option (PyVal × List Char)
  | 0, _, _ => none
  | fuel + 1, acc, l =>
    match l with
    | '"' :: rest =>
      match parseJStringAux fuel rest with
      | some (key, r1) =>
        match skipWs r1 with
        | ':' :: r3 =>
          match parseJValue fuel (skipWs r3) with
          | some (v, r4) =>
            let acc2 := aset acc (String.mk key) v
            match skipWs r4 with
            | ',' :: r6 => parseObjItems fuel acc2 (skipWs r6)
            | c :: r6 => if c = braceClose then some (.vDict acc2, r6) else none
            | [] => none
          | none => none
        | _ => none
      | none => none
    | _ => none

/-- After an opening bracket: an empty array or the first element. -/
def parseArrStart : Nat → List Char → Option (PyVal × List Char)
  | 0, _ => none
  | fuel + 1, l =>
    match skipWs l with
    | ']' :: rest => some (.vList [], rest)
    | l1 => parseArrItems fuel [] l1

/-- Elements of an array, positioned at an element. -/
def parseArrItems : Nat → List PyVal → List Char → Option (PyVal × List Char)
  | 0, _, _ => none
  | fuel + 1, acc, l =>
    match parseJValue fuel l with
    | some (v, r1) =>
      match skipWs r1 with
      | ',' :: r3 => parseArrItems fuel (acc ++ [v]) (skipWs r3)
      | ']' :: r3 => some (.vList (acc ++ [v]), r3)
      | _ => none
    | none => none

end

/-- `json.loads`: exactly one document, surrounded by optional whitespace.
The fuel `4 * length + 16` is ample: every recursive call either consumes
input or descends a bounded call chain per consumed character. -/
def jsonLoads (s : String) : Option PyVal :=
  match parseJValue (4 * s.data.length + 16) (skipWs s.data) with
  | some (v, r) => if skipWs r = [] then some v else none
  | none => none

/-! ### Payload decoding (`_on_message`, lines 116-120) -/

/-- The exceptions that can arise in the decode path. -/
inductive PyExc where
  | jsonDecodeError
  | unicodeDecodeError
  | attributeError
deriving DecidableEq

/-- `dict.get(k)` with default `None`. -/
def dictGet (kvs : List (String × PyVal)) (k : String) : PyVal :=
  match alookup kvs k with
  | some v => v
  | none => .vNone

/-- The `try:` body (lines 117-118): `json.loads(msg.payload.decode('utf-8'))`
followed by `payload.get('value')`.  `.get` on a non-dict raises
`AttributeError`. -/
def decodeTryBody (raw : List Nat) : Except PyExc PyVal :=
  match utf8Decode raw with
  | none => .error .unicodeDecodeError
  | some s =>
    match jsonLoads s with
    | none => .error .jsonDecodeError
    | some (.vDict kvs) => .ok (dictGet kvs "value")
    | some _ => .error .attributeError

/-- Lines 116-120: the `except (json.JSONDecodeError, UnicodeDecodeError)`
clause falls back to `msg.payload.decode('utf-8', errors='replace')`; any other
exception propagates. -/
def decodeValue (raw : List Nat) : Except PyExc PyVal :=
  match decodeTryBody raw with
  | .ok v => .ok v
  | .error .jsonDecodeError => .ok (.vStr (utf8ReplaceDecode raw))
  | .error .unicodeDecodeError => .ok (.vStr (utf8ReplaceDecode raw))
  | .error e => .error e

/-! ### `TopicData` and the explorer state -/

/-- `TopicData` (lines 29-37).  `value_types` is a Python set, modelled as a
duplicate-free list in insertion order; timestamps are abstract `Nat`s. -/
structure TopicData where
  topic : String
  values : List PyVal
  value_types : List String
  first_seen : Nat
  last_seen : Nat
  count : Nat

/-- `TopicData.add_value` (lines 39-45), with `datetime.now()` passed in. -/
def TopicData.add_value (td : TopicData) (value : PyVal) (now : Nat) : TopicData :=
  let td1 := { td with count := td.count + 1, last_seen := now }
  let vs := td1.values ++ [value]
  let vs2 := if 10 < vs.length then vs.tail else vs
  { td1 with values := vs2, value_types := setAdd td1.value_types (pyTypeName value) }

/-- The mutable state of `VictronMQTTExplorer` (lines 51-67), restricted to the
fields the discovery/report/config core reads or writes.  The dictionaries are
insertion-ordered association lists, the sets duplicate-free lists. -/
structure VictronMQTTExplorer where
  server : String
  port : Nat
  portal_id : String
  username : Option String
  password : Option String
  use_ssl : Bool
  insecure : Bool
  topics : List (String × TopicData)
  device_types : List (String × List String)
  measurements : List (String × List (String × List String))
  message_count : Nat

/-- `__init__` (lines 51-67): empty registries. -/
def initExplorer (server : String) (port : Nat) (portal_id : String)
    (username password : Option String) (use_ssl insecure : Bool) : VictronMQTTExplorer :=
  { server := server, port := port, portal_id := portal_id, username := username,
    password := password, use_ssl := use_ssl, insecure := insecure,
    topics := [], device_types := [], measurements := [], message_count := 0 }

/-- A freshly created `TopicData(topic=topic)` (line 124): the dataclass
defaults give empty history, empty kind set, `first_seen = last_seen = now`,
`count = 0`. -/
def freshTopicData (topic : String) (now : Nat) : TopicData :=
  { topic := topic, values := [], value_types := [], first_seen := now,
    last_seen := now, count := 0 }

/-- `_on_message` (lines 111-142).  Returns the updated state and whether an
exception escaped (`AttributeError` from the decode path); when it does, only
`message_count` has been touched.  The progress print (lines 140-142) is pure
output and is not modelled. -/
def _on_message (st : VictronMQTTExplorer) (topic : String) (payload : List Nat)
    (now : Nat) : VictronMQTTExplorer × Bool :=
  let st0 := { st with message_count := st.message_count + 1 }
  match decodeValue payload with
  | .error _ => (st0, true)
  | .ok value =>
    let td :=
      match alookup st0.topics topic with
      | some td => td
      | none => freshTopicData topic now
    let st1 := { st0 with topics := aset st0.topics topic (td.add_value value now) }
    let parts := pySplit topic
    if 4 ≤ parts.length ∧ parts.getD 0 "" = "N" then
      let device_type := parts.getD 2 ""
      let inst := parts.getD 3 ""
      let path := if 4 < parts.length then String.intercalate "/" (parts.drop 4) else ""
      let st2 := { st1 with device_types := msetAdd st1.device_types device_type inst }
      let value_type :=
        match value with
        | .vNone => "NoneType"
        | v => pyTypeName v
      ({ st2 with measurements := mmeasAdd st2.measurements device_type path value_type }, false)
    else (st1, false)

/-- One delivered MQTT message: topic, raw payload bytes, wall-clock instant. -/
structure Event where
  topic : String
  payload : List Nat
  time : Nat
deriving DecidableEq

/-- Feeding a sequence of events through `_on_message`. -/
def runEvents (st : VictronMQTTExplorer) (evs : List Event) : VictronMQTTExplorer :=
  evs.foldl (fun s e => (_on_message s e.topic e.payload e.time).1) st

/-- Does processing this event raise (escape `_on_message`)? -/
def eventRaises (e : Event) : Bool :=
  match decodeValue e.payload with
  | .ok _ => false
  | .error _ => true

/-! ### Python `sorted` for strings (lexicographic by code point) -/

/-- Lexicographic comparison of char lists by code point, as Python compares
strings. -/
def lexLe : List Char → List Char → Bool
  | [], _ => true
  | _ :: _, [] => false
  | a :: as, b :: bs =>
    if a.toNat < b.toNat then true
    else if b.toNat < a.toNat then false
    else lexLe as bs

/-- Python `s1 <= s2` on strings. -/
def pyStrLe (a b : String) : Bool := lexLe a.data b.data

/-- Python `s1 <= s2` on strings, as a decidable relation. -/
def strLe (a b : String) : Prop := pyStrLe a b = true

instance : DecidableRel strLe := fun a b => instDecidableEqBool (pyStrLe a b) true

/-- Python `sorted` on a list of strings (stable; on strings any stable sort
gives the same list). -/
def sortStr (l : List String) : List String := List.insertionSort strLe l

/-- Comparison of key/value pairs by key. -/
def keyLe {β : Type} (p q : String × β) : Prop := pyStrLe p.1 q.1 = true

instance {β : Type} : DecidableRel (@keyLe β) :=
  fun p q => instDecidableEqBool (pyStrLe p.1 q.1) true

/-- Python `sorted(d.items())` for dicts with (necessarily) distinct keys:
sorting the pairs by key alone coincides with tuple comparison. -/
def sortPairs {β : Type} (l : List (String × β)) : List (String × β) :=
  List.insertionSort keyLe l

/-! ### Config synthesis -/

/-- `_get_mqtt_url` (lines 424-427). -/
def _get_mqtt_url (st : VictronMQTTExplorer) : String :=
  (if st.use_ssl then "ssl" else "tcp") ++ "://" ++ st.server ++ ":" ++ toString st.port

/-- Python truthiness of an optional string (`if self.username:`):
`None` and `""` are falsy. -/
def truthyStr : Option String → Bool
  | none => false
  | some s => s ≠ ""

/-- Rendering of an optional string inside an f-string: `str(None) = "None"`. -/
def strOfOpt : Option String → String
  | some s => s
  | none => "None"

/-- The loop body of lines 252-257: the wildcard pattern contributed by one
registry topic, if it matches the notification grammar. -/
def patternOf (portal : String) (t : String) : Option String :=
  let parts := pySplit t
  if 4 ≤ parts.length ∧ parts.getD 0 "" = "N" then
    some ("N/" ++ portal ++ "/" ++ parts.getD 2 "" ++ "/#")
  else none

/-- Lines 250-257: the set of wildcard topic patterns, one per device type
among the notification topics of the registry (insertion-order set; the caller
sorts before emission). -/
def topicPatterns (st : VictronMQTTExplorer) : List String :=
  st.topics.foldl
    (fun acc p =>
      match patternOf st.portal_id p.1 with
      | some pat => setAdd acc pat
      | none => acc)
    []

/-- Lines 270-275: the credentials block of the basic config. -/
def basicUserBlock (st : VictronMQTTExplorer) : List String :=
  if truthyStr st.username then
    ["  username = \"" ++ strOfOpt st.username ++ "\"",
     "  password = \"" ++ strOfOpt st.password ++ "\"",
     ""]
  else []

/-- Lines 277-279: the TLS-verification block. -/
def sslBlock (st : VictronMQTTExplorer) : List String :=
  if st.use_ssl && st.insecure then ["  insecure_skip_verify = true", ""] else []

/-- Lines 282-286: the sorted topic list block. -/
def basicTopicsBlock (st : VictronMQTTExplorer) : List String :=
  ["  topics = ["] ++
  (sortStr (topicPatterns st)).map (fun p => "    \"" ++ p ++ "\",") ++
  ["  ]", ""]

/-- Lines 299-317: the three positional topic-parsing rules (emitted
unconditionally). -/
def basicParsingRules : List String :=
  ["  # Topic parsing - extracts device_type as measurement",
   "  [[inputs.mqtt_consumer.topic_parsing]]",
   "    topic = \"N/+/+/+/+\"",
   "    measurement = \"_/_/measurement/_/_\"",
   "    tags = \"_/portal_id/_/instance/field\"",
   "",
   "  [[inputs.mqtt_consumer.topic_parsing]]",
   "    topic = \"N/+/+/+/+/+\"",
   "    measurement = \"_/_/measurement/_/_/_\"",
   "    tags = \"_/portal_id/_/instance/field/subfield\"",
   "",
   "  [[inputs.mqtt_consumer.topic_parsing]]",
   "    topic = \"N/+/+/+/+/+/+\"",
   "    measurement = \"_/_/measurement/_/_/_/_\"",
   "    tags = \"_/portal_id/_/instance/field/subfield/subfield2\"",
   ""]

/-- `generate_telegraf_config` (lines 231-319) as its list of lines
(`config_lines`).  `datetime.now().isoformat()` is the `now_iso` argument.
The `max_depth` computed at lines 244-248 is dead code (never used) and is
omitted. -/
def generate_telegraf_config_lines (st : VictronMQTTExplorer) (now_iso : String) :
    List String :=
  ["# Telegraf Configuration - Victron Energy",
   "# Auto-generated by victron_mqtt_explorer.py",
   "# Generated: " ++ now_iso,
   "# Portal ID: " ++ st.portal_id,
   ""] ++
  ["[[inputs.mqtt_consumer]]",
   "  servers = [\"" ++ _get_mqtt_url st ++ "\"]",
   "",
   "  client_id = \"telegraf-victron\"",
   "  qos = 0",
   "  connection_timeout = \"30s\"",
   ""] ++
  basicUserBlock st ++
  sslBlock st ++
  basicTopicsBlock st ++
  ["  data_format = \"json_v2\"",
   "",
   "  [[inputs.mqtt_consumer.json_v2]]",
   "    [[inputs.mqtt_consumer.json_v2.field]]",
   "      path = \"value\"",
   "      rename = \"value\"",
   ""] ++
  basicParsingRules

/-- `generate_telegraf_config` returns `'\n'.join(config_lines)`. -/
def generate_telegraf_config (st : VictronMQTTExplorer) (now_iso : String) : String :=
  String.intercalate "\n" (generate_telegraf_config_lines st now_iso)

/-- The 79-character banner line of the optimized config. -/
def bannerLine : String :=
  "###############################################################################"

/-- Lines 324-358: the fixed header of the optimized config (comments,
global tags, agent, output plugin, input-section banner). -/
def optimizedHeader (st : VictronMQTTExplorer) (now_iso : String) : List String :=
  ["# Optimized Telegraf Configuration for Victron Energy",
   "# Auto-generated: " ++ now_iso,
   "# Portal ID: " ++ st.portal_id,
   "#",
   "# This configuration:",
   "#   - Flattens nested paths into field names",
   "#   - Converts string values to appropriate types",
   "#   - Groups related metrics for easier querying",
   "",
   "[global_tags]",
   "  portal_id = \"" ++ st.portal_id ++ "\"",
   "",
   "[agent]",
   "  interval = \"10s\"",
   "  round_interval = true",
   "  metric_batch_size = 1000",
   "  metric_buffer_limit = 10000",
   "  flush_interval = \"10s\"",
   "",
   bannerLine,
   "#                            OUTPUT PLUGINS                                   #",
   bannerLine,
   "",
   "[[outputs.influxdb_v2]]",
   "  urls = [\"${TELEGRAF_INFLUXDB_URL}\"]",
   "  token = \"${TELEGRAF_INFLUXDB_TOKEN}\"",
   "  organization = \"${TELEGRAF_INFLUXDB_ORG}\"",
   "  bucket = \"${TELEGRAF_INFLUXDB_BUCKET}\"",
   "",
   bannerLine,
   "#                            INPUT PLUGINS                                    #",
   bannerLine,
   ""]

/-- Lines 361-406: one isolated `mqtt_consumer` input block for one device
type.  (`paths = self.measurements[device_type]` at line 363 is dead code —
`paths` is never used in the loop body — and is omitted.) -/
def optimizedDeviceBlock (st : VictronMQTTExplorer) (device_type : String) : List String :=
  let insts := sortStr (instOf st.device_types device_type)
  ["# " ++ pyUpper device_type ++ " - instances: " ++ String.intercalate ", " insts,
   "[[inputs.mqtt_consumer]]",
   "  name_override = \"" ++ device_type ++ "\"",
   "  servers = [\"" ++ _get_mqtt_url st ++ "\"]",
   "  client_id = \"telegraf-victron-" ++ device_type ++ "\"",
   "  qos = 0",
   ""] ++
  basicUserBlock st ++
  sslBlock st ++
  ["  topics = [",
   "    \"N/" ++ st.portal_id ++ "/" ++ device_type ++ "/#\",",
   "  ]",
   "",
   "  data_format = \"json_v2\"",
   "",
   "  [[inputs.mqtt_consumer.json_v2]]",
   "    [[inputs.mqtt_consumer.json_v2.field]]",
   "      path = \"value\"",
   "",
   "  # Parse instance from topic",
   "  [[inputs.mqtt_consumer.topic_parsing]]",
   "    topic = \"N/+/+/+/+\"",
   "    tags = \"_/_/_/instance/field\"",
   "",
   "  [[inputs.mqtt_consumer.topic_parsing]]",
   "    topic = \"N/+/+/+/+/+\"",
   "    tags = \"_/_/_/instance/field/subfield\"",
   ""]

/-- Lines 409-420: the trailing processor section of the optimized config. -/
def optimizedTail : List String :=
  [bannerLine,
   "#                          PROCESSOR PLUGINS                                  #",
   bannerLine,
   "",
   "# Rename nested fields for easier querying",
   "[[processors.rename]]",
   "  [[processors.rename.replace]]",
   "    field = \"value\"",
   "    dest = \"measurement_value\"",
   ""]

/-- `generate_optimized_config` (lines 321-422) as its list of lines: header,
then one block per device type in sorted key order, then the processor tail. -/
def generate_optimized_config_lines (st : VictronMQTTExplorer) (now_iso : String) :
    List String :=
  optimizedHeader st now_iso ++
  (sortStr (akeys st.device_types)).flatMap (optimizedDeviceBlock st) ++
  optimizedTail

/-- `generate_optimized_config` returns `'\n'.join(lines)`. -/
def generate_optimized_config (st : VictronMQTTExplorer) (now_iso : String) : String :=
  String.intercalate "\n" (generate_optimized_config_lines st now_iso)

/-! ### The measurement-structure section of `print_report` (lines 199-215) -/

/-- Line 206: the grouping key of a field path — its first segment, or the
literal `(root)` for the empty path. -/
def groupKey (path : String) : String :=
  if path ≠ "" then (pySplit path).getD 0 "" else "(root)"

/-- Lines 204-207: `grouped`, a `defaultdict(list)` filled in sorted path
order. -/
def groupedPaths (paths : List (String × List String)) :
    List (String × List (String × List String)) :=
  (sortStr (akeys paths)).foldl
    (fun g path =>
      mlistAppend g (groupKey path) (path, instOf paths path))
    []

/-- Lines 209-215: the lines printed for one group.  The kind-tag set is
joined in its (modelled) insertion order; the source iterates a Python set
here, whose order the spec does not constrain. -/
def groupLines (group : String) (items : List (String × List String)) : List String :=
  if items.length ≤ 5 then
    items.map (fun pt =>
      "    " ++ (if pt.1 = "" then "(value)" else pt.1) ++ ": [" ++
        String.intercalate ", " pt.2 ++ "]")
  else
    ["    " ++ group ++ "/... (" ++ toString items.length ++ " fields)"]

/-- Lines 199-215: the measurement-structure section, one string per `print`
call (the leading `\n` of the device-type header is part of its string). -/
def measurementSectionLines
    (measurements : List (String × List (String × List String))) : List String :=
  (sortStr (akeys measurements)).flatMap (fun device_type =>
    let paths := pathsOf measurements device_type
    ("\n[" ++ device_type ++ "] - " ++ toString paths.length ++ " unique paths") ::
    (sortPairs (groupedPaths paths)).flatMap (fun gi => groupLines gi.1 gi.2))

/-! ### Spec-side restatement of the report grouping (for the refinement
claim about the measurement-structure section) -/

/-- Spec wording: field paths are grouped by their first path segment, the
empty path grouping under the literal `(root)` key. -/
def specGroupKey (path : String) : String :=
  if path = "" then "(root)" else (pySplit path).getD 0 ""

/-- First-occurrence deduplication: each group key once, in order of first
appearance. -/
def dedupFirst (l : List String) : List String := l.foldl setAdd []

/-- Spec wording of the grouping: for each group key, the field-path entries
(in sorted path order) whose first segment is that key, each carrying its
kind-tag set. -/
def specGroups (paths : List (String × List String)) :
    List (String × List (String × List String)) :=
  (dedupFirst ((sortStr (akeys paths)).map specGroupKey)).map
    (fun k => (k, ((sortStr (akeys paths)).filter (fun p => specGroupKey p = k)).map
      (fun p => (p, instOf paths p))))

/-- Spec wording of one group's rendering: with 5 or fewer field-path entries
every path is listed with its set of observed kind tags; with more than 5 the
group collapses to a single summary line reporting only the entry count. -/
def specGroupRender (group : String) (items : List (String × List String)) :
    List String :=
  if items.length ≤ 5 then
    items.map (fun pt =>
      "    " ++ (if pt.1 = "" then "(value)" else pt.1) ++ ": [" ++
        String.intercalate ", " pt.2 ++ "]")
  else
    ["    " ++ group ++ "/... (" ++ toString items.length ++ " fields)"]

/-- Spec wording of the whole measurement-structure section: per device type
(sorted), the header line, then the sorted groups rendered by
`specGroupRender`. -/
def specMeasurementSection
    (measurements : List (String × List (String × List String))) : List String :=
  (sortStr (akeys measurements)).flatMap (fun device_type =>
    let paths := pathsOf measurements device_type
    ("\n[" ++ device_type ++ "] - " ++ toString paths.length ++ " unique paths") ::
    (sortPairs (specGroups paths)).flatMap (fun gi => specGroupRender gi.1 gi.2))

/-! ## The topic grammar, event observables, and the step function -/

/-- `topic.split('/')` (line 128). -/
def topicParts (t : String) : List String := pySplit t

/-- The guard of line 129: at least 4 segments, first segment `N`. -/
def isNotifTopic (t : String) : Prop :=
  4 ≤ (topicParts t).length ∧ (topicParts t).getD 0 "" = "N"

instance : DecidablePred isNotifTopic := fun t =>
  inferInstanceAs (Decidable (4 ≤ (topicParts t).length ∧ (topicParts t).getD 0 "" = "N"))

/-- Line 130: `device_type = parts[2]`. -/
def topicDeviceType (t : String) : String := (topicParts t).getD 2 ""

/-- Line 131: `instance = parts[3]`. -/
def topicInst (t : String) : String := (topicParts t).getD 3 ""

/-- Line 132: `path = '/'.join(parts[4:]) if len(parts) > 4 else ''`. -/
def topicPath (t : String) : String :=
  if 4 < (topicParts t).length then String.intercalate "/" ((topicParts t).drop 4) else ""

/-- The decoded value of an event, defaulting to `vNone` when decoding raises
(only used under a no-raise hypothesis). -/
def eventValueD (e : Event) : PyVal :=
  match decodeValue e.payload with
  | .ok v => v
  | .error _ => .vNone

/-- Line 137: the kind tag recorded for an event's decoded value. -/
def eventKindD (e : Event) : String :=
  match decodeValue e.payload with
  | .ok value =>
    match value with
    | .vNone => "NoneType"
    | v => pyTypeName v
  | .error _ => "NoneType"

/-- The state after one delivered message. -/
def stepState (st : VictronMQTTExplorer) (e : Event) : VictronMQTTExplorer :=
  (_on_message st e.topic e.payload e.time).1

/-- The duplicate-freeness invariant of the ordered-set model: all dict keys
and all set contents are duplicate-free lists. -/
def StateNodup (st : VictronMQTTExplorer) : Prop :=
  (akeys st.topics).Nodup ∧
  (akeys st.device_types).Nodup ∧
  (∀ d, (instOf st.device_types d).Nodup) ∧
  (akeys st.measurements).Nodup ∧
  (∀ d, (akeys (pathsOf st.measurements d)).Nodup) ∧
  (∀ d p, (kindsOf st.measurements d p).Nodup)

/-! ## The bounded sample history of `TopicData` -/

/-- The last `n` elements of `l`, in order. -/
def lastN {α : Type} (n : Nat) (l : List α) : List α := l.drop (l.length - n)

/-- Folding a sequence of (value, timestamp) samples through `add_value`. -/
def foldAdd (td : TopicData) (l : List (PyVal × Nat)) : TopicData :=
  l.foldl (fun t p => t.add_value p.1 p.2) td

/-- How many lines of `l` equal `t` (an observable on generated configs). -/
def countLine (t : String) (l : List String) : Nat :=
  (l.filter (fun s => s = t)).length

/-! ### Concrete sample data (ASCII payloads for concrete runs) -/

/-- ASCII bytes of a string. -/
def bytesOf (s : String) : List Nat := s.data.map Char.toNat

/-- The wire form of a Victron value message: a JSON object with one `value`
field, e.g. the bytes of `{"value": 55.3}`. -/
def payloadOf (v : String) : List Nat :=
  [123] ++ bytesOf ("\"value\": " ++ v) ++ [125]

/-- A battery state-of-charge notification. -/
def evSoc : Event :=
  { topic := "N/portal1/battery/0/Soc", payload := payloadOf "55.3", time := 1 }

/-- A solar-charger yield notification (nested field path). -/
def evYield : Event :=
  { topic := "N/portal1/solarcharger/1/Yield/Power", payload := payloadOf "120", time := 2 }

/-- A read-back/keepalive message (excluded from the taxonomy). -/
def evKeep : Event :=
  { topic := "R/portal1/keepalive", payload := payloadOf "1", time := 3 }

/-- A session configuration as `main()` would build it. -/
def stInit : VictronMQTTExplorer :=
  initExplorer "venus.local" 8883 "portal1" (some "user") (some "pw") true true

/-- The state after a small sample session. -/
def stEx : VictronMQTTExplorer := runEvents stInit [evSoc, evYield, evKeep]

/-- A session that received no events at all. -/
def stEmpty : VictronMQTTExplorer :=
  initExplorer "venus.local" 8883 "portal1" none none true true

/-- A single-event session used in concrete instantiations. -/
def evW : Event :=
  { topic := "N/p/battery/0/Soc", payload := payloadOf "1", time := 5 }

/-- The record `evW` leaves in the registry. -/
def tdW : TopicData :=
  { topic := "N/p/battery/0/Soc", values := [PyVal.vInt 1], value_types := ["int"],
    first_seen := 5, last_seen := 5, count := 1 }

/-! ## Lemmas: the code-point order on strings -/

theorem charEq_of_toNat_eq {a b : Char} (h : a.toNat = b.toNat) : a = b :=
  Char.eq_of_val_eq (UInt32.toNat.inj h)

theorem lexLe_total : ∀ a b : List Char, lexLe a b = true ∨ lexLe b a = true := by
  intro a
  induction a with
  | nil => intro b; exact Or.inl rfl
  | cons x xs ih =>
    intro b
    cases b with
    | nil => exact Or.inr rfl
    | cons y ys =>
      by_cases h1 : x.toNat < y.toNat
      · exact Or.inl (by simp [lexLe, h1])
      · by_cases h2 : y.toNat < x.toNat
        · exact Or.inr (by simp [lexLe, h2])
        · rcases ih ys with h | h
          · exact Or.inl (by simp [lexLe, h1, h2, h])
          · exact Or.inr (by simp [lexLe, h1, h2, h])

theorem lexLe_trans :
    ∀ a b c : List Char, lexLe a b = true → lexLe b c = true → lexLe a c = true := by
  intro a
  induction a with
  | nil => intro b c _ _; rfl
  | cons x xs ih =>
    intro b c hab hbc
    cases b with
    | nil => simp [lexLe] at hab
    | cons y ys =>
      cases c with
      | nil => simp [lexLe] at hbc
      | cons z zs =>
        by_cases h1 : x.toNat < y.toNat
        · by_cases h2 : y.toNat < z.toNat
          · have : x.toNat < z.toNat := Nat.lt_trans h1 h2
            simp [lexLe, this]
          · by_cases h3 : z.toNat < y.toNat
            · simp [lexLe, h2, h3] at hbc
            · have hyz : y.toNat = z.toNat := Nat.le_antisymm (Nat.not_lt.mp h3) (Nat.not_lt.mp h2)
              have : x.toNat < z.toNat := hyz ▸ h1
              simp [lexLe, this]
        · by_cases h4 : y.toNat < x.toNat
          · simp [lexLe, h1, h4] at hab
          · have hxy : x.toNat = y.toNat := Nat.le_antisymm (Nat.not_lt.mp h4) (Nat.not_lt.mp h1)
            by_cases h2 : y.toNat < z.toNat
            · have : x.toNat < z.toNat := hxy ▸ h2
              simp [lexLe, this]
            · by_cases h3 : z.toNat < y.toNat
              · simp [lexLe, h2, h3] at hbc
              · have hyz : y.toNat = z.toNat :=
                  Nat.le_antisymm (Nat.not_lt.mp h3) (Nat.not_lt.mp h2)
                have e1 : ¬ x.toNat < z.toNat := by omega
                have e2 : ¬ z.toNat < x.toNat := by omega
                simp only [lexLe, if_neg h1, if_neg h4] at hab
                simp only [lexLe, if_neg h2, if_neg h3] at hbc
                simp only [lexLe, if_neg e1, if_neg e2]
                exact ih ys zs hab hbc

theorem lexLe_antisymm :
    ∀ a b : List Char, lexLe a b = true → lexLe b a = true → a = b := by
  intro a
  induction a with
  | nil =>
    intro b _ hba
    cases b with
    | nil => rfl
    | cons y ys => simp [lexLe] at hba
  | cons x xs ih =>
    intro b hab hba
    cases b with
    | nil => simp [lexLe] at hab
    | cons y ys =>
      by_cases h1 : x.toNat < y.toNat
      · simp [lexLe, h1] at hba
        omega
      · by_cases h2 : y.toNat < x.toNat
        · simp [lexLe, h1, h2] at hab
        · have hx : x = y := charEq_of_toNat_eq (by omega)
          simp only [lexLe, if_neg h1, if_neg h2] at hab
          simp only [lexLe, if_neg h2, if_neg h1] at hba
          rw [hx, ih ys hab hba]

instance : IsTotal String strLe := ⟨fun a b => lexLe_total a.data b.data⟩

instance : IsTrans String strLe :=
  ⟨fun a b c hab hbc => lexLe_trans a.data b.data c.data hab hbc⟩

instance : IsAntisymm String strLe := by
  refine ⟨fun a b hab hba => ?_⟩
  cases a with
  | mk da =>
    cases b with
    | mk db => exact congrArg String.mk (lexLe_antisymm da db hab hba)

instance {β : Type} : IsTotal (String × β) keyLe :=
  ⟨fun p q => lexLe_total p.1.data q.1.data⟩

instance {β : Type} : IsTrans (String × β) keyLe :=
  ⟨fun p q r hpq hqr => lexLe_trans p.1.data q.1.data r.1.data hpq hqr⟩

theorem sortStr_perm (l : List String) : List.Perm (sortStr l) l :=
  List.perm_insertionSort strLe l

theorem sortStr_sorted (l : List String) : List.Sorted strLe (sortStr l) :=
  List.sorted_insertionSort strLe l

/-- Sorting is a function of the multiset of elements: permuted inputs sort to
the same list. -/
theorem sortStr_eq_of_perm {l1 l2 : List String} (h : List.Perm l1 l2) :
    sortStr l1 = sortStr l2 :=
  List.eq_of_perm_of_sorted
    ((sortStr_perm l1).trans (h.trans (sortStr_perm l2).symm))
    (sortStr_sorted l1) (sortStr_sorted l2)

/-! ## Lemmas: the ordered-collection helpers -/

theorem mem_setAdd {α : Type} [DecidableEq α] {l : List α} {a x : α} :
    x ∈ setAdd l a ↔ x ∈ l ∨ x = a := by
  by_cases h : a ∈ l
  · simp only [setAdd, if_pos h]
    exact ⟨Or.inl, fun hc => hc.elim id (fun he => he ▸ h)⟩
  · simp [setAdd, if_neg h]

theorem nodup_setAdd {α : Type} [DecidableEq α] {l : List α} (a : α) (h : l.Nodup) :
    (setAdd l a).Nodup := by
  by_cases hm : a ∈ l
  · simpa [setAdd, if_pos hm] using h
  · simp [setAdd, if_neg hm, List.nodup_append, h, hm]

theorem alookup_eq_none {α : Type} :
    ∀ (l : List (String × α)) (k : String), alookup l k = none ↔ k ∉ akeys l := by
  intro l
  induction l with
  | nil => intro k; simp [alookup, akeys]
  | cons p ps ih =>
    intro k
    by_cases h : p.1 = k
    · simp [alookup, akeys, h]
    · simp only [alookup, if_neg h, akeys, List.map_cons, List.mem_cons]
      rw [ih k]
      constructor
      · intro hn hc
        exact hc.elim (fun he => h he.symm) hn
      · intro hn
        exact fun hk => hn (Or.inr hk)

theorem mem_akeys_of_alookup {α : Type} :
    ∀ (l : List (String × α)) (k : String) (v : α), alookup l k = some v → k ∈ akeys l := by
  intro l k v h
  by_contra hc
  rw [← alookup_eq_none l k] at hc
  rw [h] at hc
  exact Option.noConfusion hc

theorem alookup_aset {α : Type} :
    ∀ (l : List (String × α)) (k : String) (v : α) (q : String),
      alookup (aset l k v) q = if k = q then some v else alookup l q := by
  intro l
  induction l with
  | nil =>
    intro k v q
    simp [aset, alookup]
  | cons p ps ih =>
    intro k v q
    by_cases h : p.1 = k <;> by_cases hq : k = q <;>
      simp_all [aset, alookup]

theorem mem_akeys_aset {α : Type} :
    ∀ (l : List (String × α)) (k : String) (v : α) (x : String),
      x ∈ akeys (aset l k v) ↔ x ∈ akeys l ∨ x = k := by
  intro l
  induction l with
  | nil => intro k v x; simp [aset, akeys]
  | cons p ps ih =>
    intro k v x
    by_cases h : p.1 = k <;> simp_all [aset, akeys]
    tauto

theorem nodup_akeys_aset {α : Type} :
    ∀ (l : List (String × α)) (k : String) (v : α),
      (akeys l).Nodup → (akeys (aset l k v)).Nodup := by
  intro l
  induction l with
  | nil => intro k v _; simp [aset, akeys]
  | cons p ps ih =>
    intro k v h
    simp only [akeys, List.map_cons, List.nodup_cons] at h
    by_cases hp : p.1 = k
    · simp only [aset, if_pos hp, akeys, List.map_cons, List.nodup_cons]
      exact ⟨hp ▸ h.1, h.2⟩
    · simp only [aset, if_neg hp, akeys, List.map_cons, List.nodup_cons]
      refine ⟨?_, ih k v h.2⟩
      intro hc
      rw [show (aset ps k v).map Prod.fst = akeys (aset ps k v) from rfl] at hc
      rw [mem_akeys_aset] at hc
      exact hc.elim (fun hm => h.1 hm) (fun he => hp he)

theorem alookup_msetAdd :
    ∀ (m : List (String × List String)) (k v q : String),
      alookup (msetAdd m k v) q =
        if k = q then some (setAdd (instOf m k) v) else alookup m q := by
  intro m
  induction m with
  | nil =>
    intro k v q
    simp [msetAdd, alookup, instOf, setAdd]
  | cons p ps ih =>
    intro k v q
    by_cases h : p.1 = k <;> by_cases hq : k = q <;>
      simp_all [msetAdd, alookup, instOf]

theorem mem_akeys_msetAdd :
    ∀ (m : List (String × List String)) (k v x : String),
      x ∈ akeys (msetAdd m k v) ↔ x ∈ akeys m ∨ x = k := by
  intro m
  induction m with
  | nil => intro k v x; simp [msetAdd, akeys]
  | cons p ps ih =>
    intro k v x
    by_cases h : p.1 = k <;> simp_all [msetAdd, akeys]
    tauto

theorem nodup_akeys_msetAdd :
    ∀ (m : List (String × List String)) (k v : String),
      (akeys m).Nodup → (akeys (msetAdd m k v)).Nodup := by
  intro m
  induction m with
  | nil => intro k v _; simp [msetAdd, akeys]
  | cons p ps ih =>
    intro k v h
    simp only [akeys, List.map_cons, List.nodup_cons] at h
    by_cases hp : p.1 = k
    · simp only [msetAdd, if_pos hp, akeys, List.map_cons, List.nodup_cons]
      exact ⟨hp ▸ h.1, h.2⟩
    · simp only [msetAdd, if_neg hp, akeys, List.map_cons, List.nodup_cons]
      refine ⟨?_, ih k v h.2⟩
      intro hc
      rw [show (msetAdd ps k v).map Prod.fst = akeys (msetAdd ps k v) from rfl] at hc
      rw [mem_akeys_msetAdd] at hc
      exact hc.elim (fun hm => h.1 hm) (fun he => hp he)

theorem alookup_mmeasAdd :
    ∀ (ms : List (String × List (String × List String))) (d p v q : String),
      alookup (mmeasAdd ms d p v) q =
        if d = q then some (msetAdd (pathsOf ms d) p v) else alookup ms q := by
  intro ms
  induction ms with
  | nil =>
    intro d p v q
    simp [mmeasAdd, alookup, pathsOf, msetAdd]
  | cons r rs ih =>
    intro d p v q
    by_cases h : r.1 = d <;> by_cases hq : d = q <;>
      simp_all [mmeasAdd, alookup, pathsOf]

theorem mem_akeys_mmeasAdd :
    ∀ (ms : List (String × List (String × List String))) (d p v x : String),
      x ∈ akeys (mmeasAdd ms d p v) ↔ x ∈ akeys ms ∨ x = d := by
  intro ms
  induction ms with
  | nil => intro d p v x; simp [mmeasAdd, akeys]
  | cons r rs ih =>
    intro d p v x
    by_cases h : r.1 = d <;> simp_all [mmeasAdd, akeys]
    tauto

theorem nodup_akeys_mmeasAdd :
    ∀ (ms : List (String × List (String × List String))) (d p v : String),
      (akeys ms).Nodup → (akeys (mmeasAdd ms d p v)).Nodup := by
  intro ms
  induction ms with
  | nil => intro d p v _; simp [mmeasAdd, akeys]
  | cons r rs ih =>
    intro d p v h
    simp only [akeys, List.map_cons, List.nodup_cons] at h
    by_cases hr : r.1 = d
    · simp only [mmeasAdd, if_pos hr, akeys, List.map_cons, List.nodup_cons]
      exact ⟨hr ▸ h.1, h.2⟩
    · simp only [mmeasAdd, if_neg hr, akeys, List.map_cons, List.nodup_cons]
      refine ⟨?_, ih d p v h.2⟩
      intro hc
      rw [show (mmeasAdd rs d p v).map Prod.fst = akeys (mmeasAdd rs d p v) from rfl] at hc
      rw [mem_akeys_mmeasAdd] at hc
      exact hc.elim (fun hm => h.1 hm) (fun he => hr he)

theorem instOf_msetAdd (m : List (String × List String)) (k v q : String) :
    instOf (msetAdd m k v) q = if k = q then setAdd (instOf m k) v else instOf m q := by
  unfold instOf
  rw [alookup_msetAdd]
  by_cases h : k = q <;> simp [h, instOf]

theorem pathsOf_mmeasAdd (ms : List (String × List (String × List String)))
    (d p v q : String) :
    pathsOf (mmeasAdd ms d p v) q =
      if d = q then msetAdd (pathsOf ms d) p v else pathsOf ms q := by
  unfold pathsOf
  rw [alookup_mmeasAdd]
  by_cases h : d = q <;> simp [h, pathsOf]

theorem kindsOf_mmeasAdd (ms : List (String × List (String × List String)))
    (d p v q r : String) :
    kindsOf (mmeasAdd ms d p v) q r =
      if d = q then (if p = r then setAdd (kindsOf ms d p) v else kindsOf ms d r)
      else kindsOf ms q r := by
  unfold kindsOf
  rw [pathsOf_mmeasAdd]
  by_cases h : d = q
  · rw [if_pos h, if_pos h, instOf_msetAdd]
  · rw [if_neg h, if_neg h]

theorem runEvents_nil (st : VictronMQTTExplorer) : runEvents st [] = st := rfl

theorem runEvents_cons (st : VictronMQTTExplorer) (e : Event) (evs : List Event) :
    runEvents st (e :: evs) = runEvents (stepState st e) evs := rfl

/-- One step leaves every configuration field unchanged. -/
theorem stepState_const (st : VictronMQTTExplorer) (e : Event) :
    (stepState st e).portal_id = st.portal_id ∧
    (stepState st e).server = st.server ∧
    (stepState st e).port = st.port ∧
    (stepState st e).username = st.username ∧
    (stepState st e).password = st.password ∧
    (stepState st e).use_ssl = st.use_ssl ∧
    (stepState st e).insecure = st.insecure := by
  unfold stepState _on_message
  cases hd : decodeValue e.payload with
  | error ex => simp
  | ok v =>
    simp only
    split
    · simp
    · simp

/-- One step on the registry: unchanged on a raise, otherwise the looked-up (or
fresh) record with the decoded value appended. -/
theorem stepState_topics (st : VictronMQTTExplorer) (e : Event) :
    (stepState st e).topics =
      if eventRaises e = true then st.topics
      else
        aset st.topics e.topic
          ((match alookup st.topics e.topic with
            | some td => td
            | none => freshTopicData e.topic e.time).add_value (eventValueD e) e.time) := by
  unfold stepState _on_message eventRaises eventValueD
  cases hd : decodeValue e.payload with
  | error ex => simp
  | ok v =>
    simp only
    split
    · simp
    · simp

/-- One step on the device-type index. -/
theorem stepState_device_types (st : VictronMQTTExplorer) (e : Event) :
    (stepState st e).device_types =
      if eventRaises e = false ∧ isNotifTopic e.topic then
        msetAdd st.device_types (topicDeviceType e.topic) (topicInst e.topic)
      else st.device_types := by
  unfold stepState _on_message eventRaises isNotifTopic topicDeviceType topicInst topicParts
  cases hd : decodeValue e.payload with
  | error ex => simp
  | ok v =>
    simp only
    split
    · next hn => simp_all
    · next hn =>
        simp_all
        rw [if_neg (fun hc => hn hc.1 hc.2)]

/-- One step on the measurement index. -/
theorem stepState_measurements (st : VictronMQTTExplorer) (e : Event) :
    (stepState st e).measurements =
      if eventRaises e = false ∧ isNotifTopic e.topic then
        mmeasAdd st.measurements (topicDeviceType e.topic) (topicPath e.topic) (eventKindD e)
      else st.measurements := by
  unfold stepState _on_message eventRaises isNotifTopic topicDeviceType topicPath
    topicParts eventKindD
  cases hd : decodeValue e.payload with
  | error ex => simp
  | ok v =>
    simp only
    split
    · next hn => simp_all
    · next hn =>
        simp_all
        rw [if_neg (fun hc => hn hc.1 hc.2)]

/-- A generic congruence for `flatMap` under pointwise agreement. -/
theorem flatMap_congr_mem {α β : Type} :
    ∀ (l : List α) (f g : α → List β), (∀ x ∈ l, f x = g x) → l.flatMap f = l.flatMap g := by
  intro l
  induction l with
  | nil => intro f g _; rfl
  | cons x xs ih =>
    intro f g h
    simp only [List.flatMap_cons]
    rw [h x (List.mem_cons_self x xs), ih f g (fun y hy => h y (List.mem_cons_of_mem x hy))]

/-! ## Trace-level characterizations of the final state -/

/-- A whole trace leaves every configuration field unchanged. -/
theorem runEvents_const :
    ∀ (evs : List Event) (st : VictronMQTTExplorer),
      (runEvents st evs).portal_id = st.portal_id ∧
      (runEvents st evs).server = st.server ∧
      (runEvents st evs).port = st.port ∧
      (runEvents st evs).username = st.username ∧
      (runEvents st evs).password = st.password ∧
      (runEvents st evs).use_ssl = st.use_ssl ∧
      (runEvents st evs).insecure = st.insecure := by
  intro evs
  induction evs with
  | nil => intro st; exact ⟨rfl, rfl, rfl, rfl, rfl, rfl, rfl⟩
  | cons e es ih =>
    intro st
    rw [runEvents_cons]
    obtain ⟨a1, a2, a3, a4, a5, a6, a7⟩ := ih (stepState st e)
    obtain ⟨b1, b2, b3, b4, b5, b6, b7⟩ := stepState_const st e
    exact ⟨a1.trans b1, a2.trans b2, a3.trans b3, a4.trans b4, a5.trans b5,
      a6.trans b6, a7.trans b7⟩

/-- The topics recorded in the registry after a trace: those of the initial
state plus the topics of the non-raising events. -/
theorem mem_akeys_topics_runEvents :
    ∀ (evs : List Event) (st : VictronMQTTExplorer) (t : String),
      t ∈ akeys (runEvents st evs).topics ↔
        t ∈ akeys st.topics ∨ ∃ e, e ∈ evs ∧ eventRaises e = false ∧ e.topic = t := by
  intro evs
  induction evs with
  | nil => intro st t; simp [runEvents]
  | cons e es ih =>
    intro st t
    rw [runEvents_cons, ih]
    have hstep : t ∈ akeys (stepState st e).topics ↔
        t ∈ akeys st.topics ∨ (eventRaises e = false ∧ e.topic = t) := by
      rw [stepState_topics]
      cases hr : eventRaises e with
      | true => simp [hr]
      | false =>
        rw [if_neg Bool.false_ne_true]
        rw [mem_akeys_aset]
        constructor
        · intro hc
          exact hc.elim Or.inl (fun he => Or.inr ⟨rfl, he.symm⟩)
        · intro hc
          exact hc.elim Or.inl (fun he => Or.inr he.2.symm)
    rw [hstep]
    constructor
    · intro hc
      rcases hc with (hm | he) | ⟨f, hf, hfr, hft⟩
      · exact Or.inl hm
      · exact Or.inr ⟨e, List.mem_cons_self e es, he.1, he.2⟩
      · exact Or.inr ⟨f, List.mem_cons_of_mem e hf, hfr, hft⟩
    · intro hc
      rcases hc with hm | ⟨f, hf, hfr, hft⟩
      · exact Or.inl (Or.inl hm)
      · rcases List.mem_cons.mp hf with he | hes
        · exact Or.inl (Or.inr ⟨he ▸ hfr, he ▸ hft⟩)
        · exact Or.inr ⟨f, hes, hfr, hft⟩

/-- The device-type keys after a trace. -/
theorem mem_akeys_device_types_runEvents :
    ∀ (evs : List Event) (st : VictronMQTTExplorer) (d : String),
      d ∈ akeys (runEvents st evs).device_types ↔
        d ∈ akeys st.device_types ∨
          ∃ e, e ∈ evs ∧ eventRaises e = false ∧ isNotifTopic e.topic ∧
            topicDeviceType e.topic = d := by
  intro evs
  induction evs with
  | nil => intro st d; simp [runEvents]
  | cons e es ih =>
    intro st d
    rw [runEvents_cons, ih]
    have hstep : d ∈ akeys (stepState st e).device_types ↔
        d ∈ akeys st.device_types ∨
          (eventRaises e = false ∧ isNotifTopic e.topic ∧ topicDeviceType e.topic = d) := by
      rw [stepState_device_types]
      by_cases hn : eventRaises e = false ∧ isNotifTopic e.topic
      · rw [if_pos hn, mem_akeys_msetAdd]
        constructor
        · intro hc
          exact hc.elim Or.inl (fun he => Or.inr ⟨hn.1, hn.2, he.symm⟩)
        · intro hc
          exact hc.elim Or.inl (fun he => Or.inr he.2.2.symm)
      · rw [if_neg hn]
        constructor
        · exact Or.inl
        · intro hc
          exact hc.elim id (fun he => absurd ⟨he.1, he.2.1⟩ hn)
    rw [hstep]
    constructor
    · intro hc
      rcases hc with (hm | he) | ⟨f, hf, hp⟩
      · exact Or.inl hm
      · exact Or.inr ⟨e, List.mem_cons_self e es, he⟩
      · exact Or.inr ⟨f, List.mem_cons_of_mem e hf, hp⟩
    · intro hc
      rcases hc with hm | ⟨f, hf, hp⟩
      · exact Or.inl (Or.inl hm)
      · rcases List.mem_cons.mp hf with he | hes
        · exact Or.inl (Or.inr (he ▸ hp))
        · exact Or.inr ⟨f, hes, hp⟩

/-- The instances recorded for a device type after a trace. -/
theorem mem_instOf_runEvents :
    ∀ (evs : List Event) (st : VictronMQTTExplorer) (d i : String),
      i ∈ instOf (runEvents st evs).device_types d ↔
        i ∈ instOf st.device_types d ∨
          ∃ e, e ∈ evs ∧ eventRaises e = false ∧ isNotifTopic e.topic ∧
            topicDeviceType e.topic = d ∧ topicInst e.topic = i := by
  intro evs
  induction evs with
  | nil => intro st d i; simp [runEvents]
  | cons e es ih =>
    intro st d i
    rw [runEvents_cons, ih]
    have hstep : i ∈ instOf (stepState st e).device_types d ↔
        i ∈ instOf st.device_types d ∨
          (eventRaises e = false ∧ isNotifTopic e.topic ∧
            topicDeviceType e.topic = d ∧ topicInst e.topic = i) := by
      rw [stepState_device_types]
      by_cases hn : eventRaises e = false ∧ isNotifTopic e.topic
      · rw [if_pos hn, instOf_msetAdd]
        by_cases hd : topicDeviceType e.topic = d
        · rw [if_pos hd, mem_setAdd]
          constructor
          · intro hc
            exact hc.elim (fun hm => Or.inl (hd ▸ hm))
              (fun he => Or.inr ⟨hn.1, hn.2, hd, he.symm⟩)
          · intro hc
            refine hc.elim (fun hm => Or.inl (hd ▸ hm)) (fun he => Or.inr he.2.2.2.symm)
        · rw [if_neg hd]
          constructor
          · exact Or.inl
          · intro hc
            exact hc.elim id (fun he => absurd he.2.2.1 hd)
      · rw [if_neg hn]
        constructor
        · exact Or.inl
        · intro hc
          exact hc.elim id (fun he => absurd ⟨he.1, he.2.1⟩ hn)
    rw [hstep]
    constructor
    · intro hc
      rcases hc with (hm | he) | ⟨f, hf, hp⟩
      · exact Or.inl hm
      · exact Or.inr ⟨e, List.mem_cons_self e es, he⟩
      · exact Or.inr ⟨f, List.mem_cons_of_mem e hf, hp⟩
    · intro hc
      rcases hc with hm | ⟨f, hf, hp⟩
      · exact Or.inl (Or.inl hm)
      · rcases List.mem_cons.mp hf with he | hes
        · exact Or.inl (Or.inr (he ▸ hp))
        · exact Or.inr ⟨f, hes, hp⟩

/-- The measurement-index keys after a trace. -/
theorem mem_akeys_measurements_runEvents :
    ∀ (evs : List Event) (st : VictronMQTTExplorer) (d : String),
      d ∈ akeys (runEvents st evs).measurements ↔
        d ∈ akeys st.measurements ∨
          ∃ e, e ∈ evs ∧ eventRaises e = false ∧ isNotifTopic e.topic ∧
            topicDeviceType e.topic = d := by
  intro evs
  induction evs with
  | nil => intro st d; simp [runEvents]
  | cons e es ih =>
    intro st d
    rw [runEvents_cons, ih]
    have hstep : d ∈ akeys (stepState st e).measurements ↔
        d ∈ akeys st.measurements ∨
          (eventRaises e = false ∧ isNotifTopic e.topic ∧ topicDeviceType e.topic = d) := by
      rw [stepState_measurements]
      by_cases hn : eventRaises e = false ∧ isNotifTopic e.topic
      · rw [if_pos hn, mem_akeys_mmeasAdd]
        constructor
        · intro hc
          exact hc.elim Or.inl (fun he => Or.inr ⟨hn.1, hn.2, he.symm⟩)
        · intro hc
          exact hc.elim Or.inl (fun he => Or.inr he.2.2.symm)
      · rw [if_neg hn]
        constructor
        · exact Or.inl
        · intro hc
          exact hc.elim id (fun he => absurd ⟨he.1, he.2.1⟩ hn)
    rw [hstep]
    constructor
    · intro hc
      rcases hc with (hm | he) | ⟨f, hf, hp⟩
      · exact Or.inl hm
      · exact Or.inr ⟨e, List.mem_cons_self e es, he⟩
      · exact Or.inr ⟨f, List.mem_cons_of_mem e hf, hp⟩
    · intro hc
      rcases hc with hm | ⟨f, hf, hp⟩
      · exact Or.inl (Or.inl hm)
      · rcases List.mem_cons.mp hf with he | hes
        · exact Or.inl (Or.inr (he ▸ hp))
        · exact Or.inr ⟨f, hes, hp⟩

/-- The field paths recorded for a device type after a trace. -/
theorem mem_akeys_pathsOf_runEvents :
    ∀ (evs : List Event) (st : VictronMQTTExplorer) (d p : String),
      p ∈ akeys (pathsOf (runEvents st evs).measurements d) ↔
        p ∈ akeys (pathsOf st.measurements d) ∨
          ∃ e, e ∈ evs ∧ eventRaises e = false ∧ isNotifTopic e.topic ∧
            topicDeviceType e.topic = d ∧ topicPath e.topic = p := by
  intro evs
  induction evs with
  | nil => intro st d p; simp [runEvents]
  | cons e es ih =>
    intro st d p
    rw [runEvents_cons, ih]
    have hstep : p ∈ akeys (pathsOf (stepState st e).measurements d) ↔
        p ∈ akeys (pathsOf st.measurements d) ∨
          (eventRaises e = false ∧ isNotifTopic e.topic ∧
            topicDeviceType e.topic = d ∧ topicPath e.topic = p) := by
      rw [stepState_measurements]
      by_cases hn : eventRaises e = false ∧ isNotifTopic e.topic
      · rw [if_pos hn, pathsOf_mmeasAdd]
        by_cases hd : topicDeviceType e.topic = d
        · rw [if_pos hd, mem_akeys_msetAdd]
          constructor
          · intro hc
            refine hc.elim (fun hm => Or.inl ?_) (fun he => Or.inr ⟨hn.1, hn.2, hd, he.symm⟩)
            rw [← hd]; exact hm
          · intro hc
            refine hc.elim (fun hm => Or.inl ?_) (fun he => Or.inr he.2.2.2.symm)
            rw [hd]; exact hm
        · rw [if_neg hd]
          constructor
          · exact Or.inl
          · intro hc
            exact hc.elim id (fun he => absurd he.2.2.1 hd)
      · rw [if_neg hn]
        constructor
        · exact Or.inl
        · intro hc
          exact hc.elim id (fun he => absurd ⟨he.1, he.2.1⟩ hn)
    rw [hstep]
    constructor
    · intro hc
      rcases hc with (hm | he) | ⟨f, hf, hp2⟩
      · exact Or.inl hm
      · exact Or.inr ⟨e, List.mem_cons_self e es, he⟩
      · exact Or.inr ⟨f, List.mem_cons_of_mem e hf, hp2⟩
    · intro hc
      rcases hc with hm | ⟨f, hf, hp2⟩
      · exact Or.inl (Or.inl hm)
      · rcases List.mem_cons.mp hf with he | hes
        · exact Or.inl (Or.inr (he ▸ hp2))
        · exact Or.inr ⟨f, hes, hp2⟩

theorem stateNodup_step (st : VictronMQTTExplorer) (e : Event) (h : StateNodup st) :
    StateNodup (stepState st e) := by
  obtain ⟨h1, h2, h3, h4, h5, h6⟩ := h
  refine ⟨?_, ?_, ?_, ?_, ?_, ?_⟩
  · rw [stepState_topics]
    split
    · exact h1
    · exact nodup_akeys_aset _ _ _ h1
  · rw [stepState_device_types]
    split
    · exact nodup_akeys_msetAdd _ _ _ h2
    · exact h2
  · intro d
    rw [stepState_device_types]
    split
    · rw [instOf_msetAdd]
      split
      · exact nodup_setAdd _ (h3 _)
      · exact h3 d
    · exact h3 d
  · rw [stepState_measurements]
    split
    · exact nodup_akeys_mmeasAdd _ _ _ _ h4
    · exact h4
  · intro d
    rw [stepState_measurements]
    split
    · rw [pathsOf_mmeasAdd]
      split
      · exact nodup_akeys_msetAdd _ _ _ (h5 _)
      · exact h5 d
    · exact h5 d
  · intro d p
    rw [stepState_measurements]
    split
    · rw [kindsOf_mmeasAdd]
      split
      · split
        · exact nodup_setAdd _ (h6 _ _)
        · exact h6 _ _
      · exact h6 d p
    · exact h6 d p

theorem stateNodup_runEvents :
    ∀ (evs : List Event) (st : VictronMQTTExplorer),
      StateNodup st → StateNodup (runEvents st evs) := by
  intro evs
  induction evs with
  | nil => intro st h; exact h
  | cons e es ih =>
    intro st h
    rw [runEvents_cons]
    exact ih (stepState st e) (stateNodup_step st e h)

theorem stateNodup_init (server : String) (port : Nat) (portal_id : String)
    (username password : Option String) (use_ssl insecure : Bool) :
    StateNodup (initExplorer server port portal_id username password use_ssl insecure) := by
  refine ⟨?_, ?_, ?_, ?_, ?_, ?_⟩ <;>
    simp [initExplorer, akeys, instOf, pathsOf, kindsOf, alookup]

/-- Membership in the pattern-set fold of `generate_telegraf_config`. -/
theorem mem_patterns_fold (portal : String) :
    ∀ (l : List (String × TopicData)) (init : List String) (x : String),
      x ∈ l.foldl
        (fun acc p =>
          match patternOf portal p.1 with
          | some pat => setAdd acc pat
          | none => acc) init ↔
        x ∈ init ∨ ∃ p, p ∈ l ∧ patternOf portal p.1 = some x := by
  intro l
  induction l with
  | nil => intro init x; simp
  | cons q qs ih =>
    intro init x
    simp only [List.foldl_cons]
    rw [ih]
    cases hq : patternOf portal q.1 with
    | none =>
      simp only [hq]
      constructor
      · intro hc
        rcases hc with hm | ⟨p, hp, hpx⟩
        · exact Or.inl hm
        · exact Or.inr ⟨p, List.mem_cons_of_mem q hp, hpx⟩
      · intro hc
        rcases hc with hm | ⟨p, hp, hpx⟩
        · exact Or.inl hm
        · rcases List.mem_cons.mp hp with he | hes
          · rw [he] at hpx
            rw [hq] at hpx
            exact Option.noConfusion hpx
          · exact Or.inr ⟨p, hes, hpx⟩
    | some pat =>
      simp only [hq]
      rw [show (x ∈ setAdd init pat ↔ x ∈ init ∨ x = pat) from mem_setAdd]
      constructor
      · intro hc
        rcases hc with (hm | he) | ⟨p, hp, hpx⟩
        · exact Or.inl hm
        · exact Or.inr ⟨q, List.mem_cons_self q qs, by rw [hq, he]⟩
        · exact Or.inr ⟨p, List.mem_cons_of_mem q hp, hpx⟩
      · intro hc
        rcases hc with hm | ⟨p, hp, hpx⟩
        · exact Or.inl (Or.inl hm)
        · rcases List.mem_cons.mp hp with he | hes
          · rw [he, hq] at hpx
            exact Or.inl (Or.inr (Option.some.inj hpx).symm)
          · exact Or.inr ⟨p, hes, hpx⟩

/-- The pattern-set fold preserves duplicate-freeness. -/
theorem nodup_patterns_fold (portal : String) :
    ∀ (l : List (String × TopicData)) (init : List String),
      init.Nodup →
      (l.foldl
        (fun acc p =>
          match patternOf portal p.1 with
          | some pat => setAdd acc pat
          | none => acc) init).Nodup := by
  intro l
  induction l with
  | nil => intro init h; exact h
  | cons q qs ih =>
    intro init h
    simp only [List.foldl_cons]
    cases hq : patternOf portal q.1 with
    | none => simp only [hq]; exact ih init h
    | some pat => simp only [hq]; exact ih _ (nodup_setAdd pat h)

/-- Membership in `topicPatterns`: one wildcard pattern per notification topic
of the registry. -/
theorem mem_topicPatterns (st : VictronMQTTExplorer) (x : String) :
    x ∈ topicPatterns st ↔
      ∃ t, t ∈ akeys st.topics ∧ patternOf st.portal_id t = some x := by
  unfold topicPatterns
  rw [mem_patterns_fold]
  constructor
  · intro hc
    rcases hc with hm | ⟨p, hp, hpx⟩
    · exact absurd hm (List.not_mem_nil x)
    · exact ⟨p.1, List.mem_map_of_mem Prod.fst hp, hpx⟩
  · intro hc
    rcases hc with ⟨t, ht, htx⟩
    rcases List.mem_map.mp ht with ⟨p, hp, hpt⟩
    exact Or.inr ⟨p, hp, by rw [hpt]; exact htx⟩

theorem nodup_topicPatterns (st : VictronMQTTExplorer) : (topicPatterns st).Nodup :=
  nodup_patterns_fold st.portal_id st.topics [] List.nodup_nil

/-- The kind tags recorded for a device type and field path after a trace. -/
theorem mem_kindsOf_runEvents :
    ∀ (evs : List Event) (st : VictronMQTTExplorer) (d p k : String),
      k ∈ kindsOf (runEvents st evs).measurements d p ↔
        k ∈ kindsOf st.measurements d p ∨
          ∃ e, e ∈ evs ∧ eventRaises e = false ∧ isNotifTopic e.topic ∧
            topicDeviceType e.topic = d ∧ topicPath e.topic = p ∧ eventKindD e = k := by
  intro evs
  induction evs with
  | nil => intro st d p k; simp [runEvents]
  | cons e es ih =>
    intro st d p k
    rw [runEvents_cons, ih]
    have hstep : k ∈ kindsOf (stepState st e).measurements d p ↔
        k ∈ kindsOf st.measurements d p ∨
          (eventRaises e = false ∧ isNotifTopic e.topic ∧
            topicDeviceType e.topic = d ∧ topicPath e.topic = p ∧ eventKindD e = k) := by
      rw [stepState_measurements]
      by_cases hn : eventRaises e = false ∧ isNotifTopic e.topic
      · rw [if_pos hn, kindsOf_mmeasAdd]
        by_cases hd : topicDeviceType e.topic = d
        · rw [if_pos hd]
          by_cases hp : topicPath e.topic = p
          · rw [if_pos hp, mem_setAdd]
            constructor
            · intro hc
              refine hc.elim (fun hm => Or.inl ?_) (fun he => Or.inr ⟨hn.1, hn.2, hd, hp, he.symm⟩)
              rw [← hd, ← hp]; exact hm
            · intro hc
              refine hc.elim (fun hm => Or.inl ?_) (fun he => Or.inr he.2.2.2.2.symm)
              rw [hd, hp]; exact hm
          · rw [if_neg hp]
            constructor
            · intro hc
              refine Or.inl ?_
              rw [← hd]; exact hc
            · intro hc
              refine hc.elim (fun hm => ?_) (fun he => absurd he.2.2.2.1 hp)
              rw [hd]; exact hm
        · rw [if_neg hd]
          constructor
          · exact Or.inl
          · intro hc
            exact hc.elim id (fun he => absurd he.2.2.1 hd)
      · rw [if_neg hn]
        constructor
        · exact Or.inl
        · intro hc
          exact hc.elim id (fun he => absurd ⟨he.1, he.2.1⟩ hn)
    rw [hstep]
    constructor
    · intro hc
      rcases hc with (hm | he) | ⟨f, hf, hp⟩
      · exact Or.inl hm
      · exact Or.inr ⟨e, List.mem_cons_self e es, he⟩
      · exact Or.inr ⟨f, List.mem_cons_of_mem e hf, hp⟩
    · intro hc
      rcases hc with hm | ⟨f, hf, hp⟩
      · exact Or.inl (Or.inl hm)
      · rcases List.mem_cons.mp hf with he | hes
        · exact Or.inl (Or.inr (he ▸ hp))
        · exact Or.inr ⟨f, hes, hp⟩

/-! ## Order-independence of the synthesized configurations -/

/-- The basic config reads only the connection fields and the sorted pattern
set. -/
theorem generate_telegraf_config_congr (st1 st2 : VictronMQTTExplorer) (now_iso : String)
    (hp : st1.portal_id = st2.portal_id) (hs : st1.server = st2.server)
    (hport : st1.port = st2.port) (hu : st1.username = st2.username)
    (hpw : st1.password = st2.password) (hssl : st1.use_ssl = st2.use_ssl)
    (hins : st1.insecure = st2.insecure)
    (hpat : sortStr (topicPatterns st1) = sortStr (topicPatterns st2)) :
    generate_telegraf_config st1 now_iso = generate_telegraf_config st2 now_iso := by
  unfold generate_telegraf_config generate_telegraf_config_lines basicUserBlock sslBlock
    basicTopicsBlock _get_mqtt_url
  rw [hpat, hp, hs, hport, hu, hpw, hssl, hins]

/-- One optimized-config device block reads only the connection fields and the
sorted instance set of its device type. -/
theorem optimizedDeviceBlock_congr (st1 st2 : VictronMQTTExplorer) (d : String)
    (hp : st1.portal_id = st2.portal_id) (hs : st1.server = st2.server)
    (hport : st1.port = st2.port) (hu : st1.username = st2.username)
    (hpw : st1.password = st2.password) (hssl : st1.use_ssl = st2.use_ssl)
    (hins : st1.insecure = st2.insecure)
    (hinst : sortStr (instOf st1.device_types d) = sortStr (instOf st2.device_types d)) :
    optimizedDeviceBlock st1 d = optimizedDeviceBlock st2 d := by
  unfold optimizedDeviceBlock basicUserBlock sslBlock _get_mqtt_url
  rw [hinst, hp, hs, hport, hu, hpw, hssl, hins]

/-- The optimized config reads only the connection fields, the sorted
device-type key set, and the sorted per-type instance sets. -/
theorem generate_optimized_config_congr (st1 st2 : VictronMQTTExplorer) (now_iso : String)
    (hp : st1.portal_id = st2.portal_id) (hs : st1.server = st2.server)
    (hport : st1.port = st2.port) (hu : st1.username = st2.username)
    (hpw : st1.password = st2.password) (hssl : st1.use_ssl = st2.use_ssl)
    (hins : st1.insecure = st2.insecure)
    (hkeys : sortStr (akeys st1.device_types) = sortStr (akeys st2.device_types))
    (hinst : ∀ d, sortStr (instOf st1.device_types d) = sortStr (instOf st2.device_types d)) :
    generate_optimized_config st1 now_iso = generate_optimized_config st2 now_iso := by
  unfold generate_optimized_config generate_optimized_config_lines optimizedHeader
  rw [hkeys, hp]
  have hblocks : (sortStr (akeys st2.device_types)).flatMap (optimizedDeviceBlock st1) =
      (sortStr (akeys st2.device_types)).flatMap (optimizedDeviceBlock st2) :=
    flatMap_congr_mem _ _ _
      (fun d _ => optimizedDeviceBlock_congr st1 st2 d hp hs hport hu hpw hssl hins (hinst d))
  rw [hblocks]

/-- Permuted traces from a common (duplicate-free) starting state give the
same sorted pattern set, the same sorted device-type keys, and the same sorted
instance sets. -/
theorem sorted_views_eq (st0 : VictronMQTTExplorer) (h0 : StateNodup st0)
    (evs1 evs2 : List Event) (hperm : List.Perm evs1 evs2) :
    sortStr (topicPatterns (runEvents st0 evs1)) =
      sortStr (topicPatterns (runEvents st0 evs2)) ∧
    sortStr (akeys (runEvents st0 evs1).device_types) =
      sortStr (akeys (runEvents st0 evs2).device_types) ∧
    ∀ d, sortStr (instOf (runEvents st0 evs1).device_types d) =
      sortStr (instOf (runEvents st0 evs2).device_types d) := by
  obtain ⟨hn1a, hn1b, hn1c, _, _, _⟩ := stateNodup_runEvents evs1 st0 h0
  obtain ⟨hn2a, hn2b, hn2c, _, _, _⟩ := stateNodup_runEvents evs2 st0 h0
  have hpor1 := (runEvents_const evs1 st0).1
  have hpor2 := (runEvents_const evs2 st0).1
  refine ⟨?_, ?_, ?_⟩
  · apply sortStr_eq_of_perm
    rw [List.perm_ext_iff_of_nodup (nodup_topicPatterns _) (nodup_topicPatterns _)]
    intro x
    rw [mem_topicPatterns, mem_topicPatterns, hpor1, hpor2]
    constructor
    · rintro ⟨t, ht, htx⟩
      rw [mem_akeys_topics_runEvents] at ht
      refine ⟨t, ?_, htx⟩
      rw [mem_akeys_topics_runEvents]
      rcases ht with hm | ⟨e, he, hr, hte⟩
      · exact Or.inl hm
      · exact Or.inr ⟨e, hperm.mem_iff.mp he, hr, hte⟩
    · rintro ⟨t, ht, htx⟩
      rw [mem_akeys_topics_runEvents] at ht
      refine ⟨t, ?_, htx⟩
      rw [mem_akeys_topics_runEvents]
      rcases ht with hm | ⟨e, he, hr, hte⟩
      · exact Or.inl hm
      · exact Or.inr ⟨e, hperm.mem_iff.mpr he, hr, hte⟩
  · apply sortStr_eq_of_perm
    rw [List.perm_ext_iff_of_nodup hn1b hn2b]
    intro d
    rw [mem_akeys_device_types_runEvents, mem_akeys_device_types_runEvents]
    constructor
    · intro hc
      rcases hc with hm | ⟨e, he, hrest⟩
      · exact Or.inl hm
      · exact Or.inr ⟨e, hperm.mem_iff.mp he, hrest⟩
    · intro hc
      rcases hc with hm | ⟨e, he, hrest⟩
      · exact Or.inl hm
      · exact Or.inr ⟨e, hperm.mem_iff.mpr he, hrest⟩
  · intro d
    apply sortStr_eq_of_perm
    rw [List.perm_ext_iff_of_nodup (hn1c d) (hn2c d)]
    intro i
    rw [mem_instOf_runEvents, mem_instOf_runEvents]
    constructor
    · intro hc
      rcases hc with hm | ⟨e, he, hrest⟩
      · exact Or.inl hm
      · exact Or.inr ⟨e, hperm.mem_iff.mp he, hrest⟩
    · intro hc
      rcases hc with hm | ⟨e, he, hrest⟩
      · exact Or.inl hm
      · exact Or.inr ⟨e, hperm.mem_iff.mpr he, hrest⟩

theorem lastN_length {α : Type} (n : Nat) (l : List α) :
    (lastN n l).length = min n l.length := by
  unfold lastN
  rw [List.length_drop]
  omega

theorem lastN_of_le {α : Type} (n : Nat) (l : List α) (h : l.length ≤ n) :
    lastN n l = l := by
  unfold lastN
  rw [Nat.sub_eq_zero_of_le h, List.drop_zero]

theorem lastN_append_ge {α : Type} (xs ys : List α) (n : Nat) (h : n ≤ ys.length) :
    lastN n (xs ++ ys) = lastN n ys := by
  unfold lastN
  rw [List.length_append]
  rw [show xs.length + ys.length - n = xs.length + (ys.length - n) by omega]
  exact List.drop_append (ys.length - n)

theorem lastN_append_le {α : Type} (xs ys : List α) (n : Nat) (h : ys.length ≤ n) :
    lastN n (xs ++ ys) = lastN (n - ys.length) xs ++ ys := by
  unfold lastN
  rw [List.length_append]
  rw [show xs.length + ys.length - n = xs.length - (n - ys.length) by omega]
  exact List.drop_append_of_le_length (by omega)

theorem lastN_lastN {α : Type} (m n : Nat) (xs : List α) (h : m ≤ n) :
    lastN m (lastN n xs) = lastN m xs := by
  unfold lastN
  rw [List.length_drop, List.drop_drop]
  congr 1
  omega

/-- The key eviction identity: keeping the last `n` before appending more makes
no difference to the last `n` of the whole. -/
theorem lastN_lastN_append {α : Type} (n : Nat) (xs ys : List α) :
    lastN n (lastN n xs ++ ys) = lastN n (xs ++ ys) := by
  by_cases h : n ≤ ys.length
  · rw [lastN_append_ge _ _ _ h, lastN_append_ge _ _ _ h]
  · have h' : ys.length ≤ n := Nat.le_of_not_le h
    rw [lastN_append_le _ _ _ h', lastN_append_le _ _ _ h',
      lastN_lastN _ _ _ (Nat.sub_le n ys.length)]

/-- One `add_value` call: `count` and `last_seen` are updated and the history
is the last 10 of the old history plus the new value. -/
theorem add_value_values (td : TopicData) (v : PyVal) (now : Nat)
    (h : td.values.length ≤ 10) :
    (td.add_value v now).values = lastN 10 (td.values ++ [v]) := by
  unfold TopicData.add_value
  simp only
  by_cases h10 : td.values.length = 10
  · rw [if_pos (by simp [h10])]
    unfold lastN
    rw [List.length_append, ← List.drop_one]
    congr 1
    simp [h10]
  · rw [if_neg (by simp; omega)]
    rw [lastN_of_le]
    simp
    omega

theorem add_value_count (td : TopicData) (v : PyVal) (now : Nat) :
    (td.add_value v now).count = td.count + 1 := rfl

theorem foldAdd_count :
    ∀ (l : List (PyVal × Nat)) (td : TopicData),
      (foldAdd td l).count = td.count + l.length := by
  intro l
  induction l with
  | nil => intro td; rfl
  | cons p ps ih =>
    intro td
    show (foldAdd (td.add_value p.1 p.2) ps).count = td.count + (ps.length + 1)
    rw [ih, add_value_count]
    omega

theorem foldAdd_values :
    ∀ (l : List (PyVal × Nat)) (td : TopicData), td.values.length ≤ 10 →
      (foldAdd td l).values = lastN 10 (td.values ++ l.map Prod.fst) := by
  intro l
  induction l with
  | nil =>
    intro td h
    show td.values = lastN 10 (td.values ++ [])
    rw [List.append_nil, lastN_of_le _ _ h]
  | cons p ps ih =>
    intro td h
    show (foldAdd (td.add_value p.1 p.2) ps).values = _
    have hlen : (td.add_value p.1 p.2).values.length ≤ 10 := by
      rw [add_value_values td p.1 p.2 h, lastN_length]
      omega
    rw [ih _ hlen, add_value_values td p.1 p.2 h, lastN_lastN_append]
    simp

/-! ## Registry record invariants along a trace -/

theorem mem_aset_elim {α : Type} :
    ∀ (l : List (String × α)) (k : String) (v : α) (p : String × α),
      p ∈ aset l k v → p = (k, v) ∨ p ∈ l := by
  intro l
  induction l with
  | nil =>
    intro k v p hp
    simp only [aset] at hp
    rcases List.mem_cons.mp hp with he | hm
    · exact Or.inl he
    · exact absurd hm (List.not_mem_nil p)
  | cons q qs ih =>
    intro k v p hp
    by_cases h : q.1 = k
    · simp only [aset, if_pos h] at hp
      rcases List.mem_cons.mp hp with he | hm
      · exact Or.inl he
      · exact Or.inr (List.mem_cons_of_mem q hm)
    · simp only [aset, if_neg h] at hp
      rcases List.mem_cons.mp hp with he | hm
      · exact Or.inr (he ▸ List.mem_cons_self q qs)
      · rcases ih k v p hm with h1 | h2
        · exact Or.inl h1
        · exact Or.inr (List.mem_cons_of_mem q h2)

theorem alookup_mem {α : Type} :
    ∀ (l : List (String × α)) (k : String) (v : α),
      alookup l k = some v → (k, v) ∈ l := by
  intro l
  induction l with
  | nil => intro k v h; exact absurd h (by simp [alookup])
  | cons q qs ih =>
    intro k v h
    by_cases hq : q.1 = k
    · simp only [alookup, if_pos hq] at h
      have hqkv : q = (k, v) := by
        cases q with
        | mk q1 q2 =>
          simp only at hq h
          rw [hq, Option.some.inj h]
      exact hqkv ▸ List.mem_cons_self q qs
    · simp only [alookup, if_neg hq] at h
      exact List.mem_cons_of_mem q (ih k v h)

theorem add_value_topic (td : TopicData) (v : PyVal) (now : Nat) :
    (td.add_value v now).topic = td.topic := rfl

theorem add_value_first_seen (td : TopicData) (v : PyVal) (now : Nat) :
    (td.add_value v now).first_seen = td.first_seen := rfl

theorem add_value_last_seen (td : TopicData) (v : PyVal) (now : Nat) :
    (td.add_value v now).last_seen = now := rfl

/-- The record invariant along a trace of nondecreasing timestamps: the key
matches the stored topic and `first_seen ≤ last_seen`, with all `last_seen`
bounded by the times still to come. -/
theorem topics_timestamps_aux :
    ∀ (evs : List Event) (st : VictronMQTTExplorer),
      List.Sorted (· ≤ ·) (evs.map Event.time) →
      (∀ p ∈ st.topics, p.2.topic = p.1 ∧ p.2.first_seen ≤ p.2.last_seen ∧
        ∀ e ∈ evs, p.2.last_seen ≤ e.time) →
      ∀ p ∈ (runEvents st evs).topics,
        p.2.topic = p.1 ∧ p.2.first_seen ≤ p.2.last_seen := by
  intro evs
  induction evs with
  | nil =>
    intro st _ hinv p hp
    exact ⟨(hinv p hp).1, (hinv p hp).2.1⟩
  | cons e es ih =>
    intro st hsort hinv
    rw [runEvents_cons]
    have hsort' : List.Sorted (· ≤ ·) (es.map Event.time) := (List.sorted_cons.mp hsort).2
    have hle : ∀ f ∈ es, e.time ≤ f.time := by
      intro f hf
      exact (List.sorted_cons.mp hsort).1 f.time (List.mem_map_of_mem Event.time hf)
    apply ih (stepState st e) hsort'
    intro p hp
    rw [stepState_topics] at hp
    by_cases hr : eventRaises e = true
    · rw [if_pos hr] at hp
      obtain ⟨h1, h2, h3⟩ := hinv p hp
      exact ⟨h1, h2, fun f hf => h3 f (List.mem_cons_of_mem e hf)⟩
    · rw [if_neg hr] at hp
      rcases mem_aset_elim _ _ _ p hp with he | hm
      · rw [he]
        cases hl : alookup st.topics e.topic with
        | some td =>
          dsimp only
          obtain ⟨h1, h2, h3⟩ := hinv (e.topic, td) (alookup_mem _ _ _ hl)
          refine ⟨?_, ?_, ?_⟩
          · rw [add_value_topic]
            exact h1
          · rw [add_value_first_seen, add_value_last_seen]
            exact h2.trans (h3 e (List.mem_cons_self e es))
          · intro f hf
            rw [add_value_last_seen]
            exact hle f hf
        | none =>
          dsimp only
          refine ⟨rfl, ?_, ?_⟩
          · rw [add_value_first_seen, add_value_last_seen]
            exact Nat.le_refl e.time
          · intro f hf
            rw [add_value_last_seen]
            exact hle f hf
      · obtain ⟨h1, h2, h3⟩ := hinv p hm
        exact ⟨h1, h2, fun f hf => h3 f (List.mem_cons_of_mem e hf)⟩

/-! ## The claims -/

/-- **C3** — After any sequence of `N ≥ 1` `add_value` calls on a freshly
created record: `count = N`; `len(values) = min(N, 10)`; `values` holds
exactly the last `min(N, 10)` recorded samples in arrival order (oldest
evicted first); after every prefix of calls `count ≥ len(values)`; and
`count` never decreases from one call to the next. -/
theorem C3_record_history (topic : String) (t0 : Nat) (samples : List (PyVal × Nat))
    (h : 1 ≤ samples.length) :
    (foldAdd (freshTopicData topic t0) samples).count = samples.length ∧
    (foldAdd (freshTopicData topic t0) samples).values.length = min samples.length 10 ∧
    (foldAdd (freshTopicData topic t0) samples).values =
      lastN (min samples.length 10) (samples.map Prod.fst) ∧
    (∀ k, (foldAdd (freshTopicData topic t0) (samples.take k)).values.length ≤
      (foldAdd (freshTopicData topic t0) (samples.take k)).count) ∧
    (∀ k, (foldAdd (freshTopicData topic t0) (samples.take k)).count ≤
      (foldAdd (freshTopicData topic t0) (samples.take (k + 1))).count) := by
  have hfresh : (freshTopicData topic t0).values.length ≤ 10 := by simp [freshTopicData]
  have hcount : ∀ l : List (PyVal × Nat),
      (foldAdd (freshTopicData topic t0) l).count = l.length := by
    intro l
    rw [foldAdd_count]
    simp [freshTopicData]
  have hvals : ∀ l : List (PyVal × Nat),
      (foldAdd (freshTopicData topic t0) l).values = lastN 10 (l.map Prod.fst) := by
    intro l
    rw [foldAdd_values l _ hfresh]
    simp [freshTopicData]
  refine ⟨hcount samples, ?_, ?_, ?_, ?_⟩
  · rw [hvals, lastN_length, List.length_map]
    omega
  · rw [hvals]
    unfold lastN
    congr 1
    rw [List.length_map]
    omega
  · intro k
    rw [hvals, hcount, lastN_length, List.length_map, List.length_take]
    omega
  · intro k
    rw [hcount, hcount, List.length_take, List.length_take]
    omega

theorem C3_record_history_witness :
    (foldAdd (freshTopicData "N/portal1/battery/0/Soc" 0)
      [(PyVal.vFloat "55.3", 1), (PyVal.vFloat "54.9", 2)]).count = 2 :=
  (C3_record_history "N/portal1/battery/0/Soc" 0
    [(PyVal.vFloat "55.3", 1), (PyVal.vFloat "54.9", 2)] (by decide)).1

/-- **C10** — `add_value` never touches `topic` or `first_seen` (they are fixed
at record creation; only `values`, `value_types`, `last_seen` and `count`
change), and along any session trace with nondecreasing wall-clock times every
registry record satisfies `first_seen ≤ last_seen` and stores the topic it is
keyed under. -/
theorem C10_first_seen_frame :
    (∀ (td : TopicData) (v : PyVal) (now : Nat),
      (td.add_value v now).topic = td.topic ∧
      (td.add_value v now).first_seen = td.first_seen) ∧
    ∀ (server : String) (port : Nat) (portal_id : String)
      (username password : Option String) (use_ssl insecure : Bool) (evs : List Event),
      List.Sorted (· ≤ ·) (evs.map Event.time) →
      ∀ p ∈ (runEvents (initExplorer server port portal_id username password
          use_ssl insecure) evs).topics,
        p.2.topic = p.1 ∧ p.2.first_seen ≤ p.2.last_seen := by
  constructor
  · intro td v now
    exact ⟨rfl, rfl⟩
  · intro server port portal_id username password use_ssl insecure evs hsort p hp
    refine topics_timestamps_aux evs _ hsort ?_ p hp
    intro q hq
    exact absurd hq (by simp [initExplorer])

theorem C10_first_seen_frame_witness :
    tdW.topic = "N/p/battery/0/Soc" ∧ tdW.first_seen ≤ tdW.last_seen :=
  C10_first_seen_frame.2 "s" 1 "p" none none false false [evW]
    (by simp)
    ("N/p/battery/0/Soc", tdW)
    (by
      rw [show (runEvents (initExplorer "s" 1 "p" none none false false) [evW]).topics =
        [("N/p/battery/0/Soc", tdW)] from rfl]
      exact List.mem_cons_self _ _)

/-- **C4** — Every ingested (non-raising) event whose topic has at least four
`/`-segments and notification marker `N` contributes `segments[3]` to
`DeviceTypeIndex[segments[2]]` and its sample's kind tag to
`MeasurementIndex[segments[2]][join(segments[4:])]` (the selectors are
`topicDeviceType`, `topicInst`, `topicPath`); both index sets are
duplicate-free, so each distinct pair is present exactly once regardless of
how often the event repeats. -/
theorem C4_taxonomy_ingestion (server : String) (port : Nat) (portal_id : String)
    (username password : Option String) (use_ssl insecure : Bool)
    (evs : List Event) (hok : ∀ e ∈ evs, eventRaises e = false)
    (e : Event) (he : e ∈ evs)
    (hseg : 4 ≤ (topicParts e.topic).length)
    (hmark : (topicParts e.topic).getD 0 "" = "N") :
    topicInst e.topic ∈
      instOf (runEvents (initExplorer server port portal_id username password
        use_ssl insecure) evs).device_types (topicDeviceType e.topic) ∧
    eventKindD e ∈
      kindsOf (runEvents (initExplorer server port portal_id username password
        use_ssl insecure) evs).measurements
        (topicDeviceType e.topic) (topicPath e.topic) ∧
    (∀ d, (instOf (runEvents (initExplorer server port portal_id username password
        use_ssl insecure) evs).device_types d).Nodup) ∧
    (∀ d p, (kindsOf (runEvents (initExplorer server port portal_id username password
        use_ssl insecure) evs).measurements d p).Nodup) := by
  have hn : isNotifTopic e.topic := ⟨hseg, hmark⟩
  obtain ⟨_, _, hic, _, _, hkc⟩ := stateNodup_runEvents evs _
    (stateNodup_init server port portal_id username password use_ssl insecure)
  refine ⟨?_, ?_, hic, hkc⟩
  · rw [mem_instOf_runEvents]
    exact Or.inr ⟨e, he, hok e he, hn, rfl, rfl⟩
  · rw [mem_kindsOf_runEvents]
    exact Or.inr ⟨e, he, hok e he, hn, rfl, rfl, rfl⟩

theorem C4_taxonomy_ingestion_witness :
    topicInst evSoc.topic ∈
      instOf stEx.device_types (topicDeviceType evSoc.topic) :=
  (C4_taxonomy_ingestion "venus.local" 8883 "portal1" (some "user") (some "pw")
    true true [evSoc, evYield, evKeep] (by decide)
    evSoc (by simp [evSoc, evYield, evKeep]) (by decide) (by decide)).1

/-- **C5** — Topics whose first segment is not the notification marker (e.g.
the read-back marker `R`) or with fewer than four segments are still recorded
in the Topic Registry, but every entry of `DeviceTypeIndex` (keys and
instances) and of `MeasurementIndex` (keys and field paths) is witnessed by an
event whose topic has at least four segments and first segment `N`. -/
theorem C5_filtering (server : String) (port : Nat) (portal_id : String)
    (username password : Option String) (use_ssl insecure : Bool)
    (evs : List Event) (hok : ∀ e ∈ evs, eventRaises e = false) :
    (∀ e ∈ evs, ¬ isNotifTopic e.topic →
      e.topic ∈ akeys (runEvents (initExplorer server port portal_id username password
        use_ssl insecure) evs).topics) ∧
    (∀ d, d ∈ akeys (runEvents (initExplorer server port portal_id username password
        use_ssl insecure) evs).device_types →
      ∃ e, e ∈ evs ∧ 4 ≤ (topicParts e.topic).length ∧
        (topicParts e.topic).getD 0 "" = "N" ∧ topicDeviceType e.topic = d) ∧
    (∀ d i, i ∈ instOf (runEvents (initExplorer server port portal_id username password
        use_ssl insecure) evs).device_types d →
      ∃ e, e ∈ evs ∧ 4 ≤ (topicParts e.topic).length ∧
        (topicParts e.topic).getD 0 "" = "N" ∧
        topicDeviceType e.topic = d ∧ topicInst e.topic = i) ∧
    (∀ d, d ∈ akeys (runEvents (initExplorer server port portal_id username password
        use_ssl insecure) evs).measurements →
      ∃ e, e ∈ evs ∧ 4 ≤ (topicParts e.topic).length ∧
        (topicParts e.topic).getD 0 "" = "N" ∧ topicDeviceType e.topic = d) ∧
    (∀ d p, p ∈ akeys (pathsOf (runEvents (initExplorer server port portal_id username
        password use_ssl insecure) evs).measurements d) →
      ∃ e, e ∈ evs ∧ 4 ≤ (topicParts e.topic).length ∧
        (topicParts e.topic).getD 0 "" = "N" ∧
        topicDeviceType e.topic = d ∧ topicPath e.topic = p) := by
  refine ⟨?_, ?_, ?_, ?_, ?_⟩
  · intro e he _
    rw [mem_akeys_topics_runEvents]
    exact Or.inr ⟨e, he, hok e he, rfl⟩
  · intro d hd
    rw [mem_akeys_device_types_runEvents] at hd
    rcases hd with hm | ⟨e, he, _, hn, hdt⟩
    · exact absurd hm (by simp [initExplorer, akeys])
    · exact ⟨e, he, hn.1, hn.2, hdt⟩
  · intro d i hi
    rw [mem_instOf_runEvents] at hi
    rcases hi with hm | ⟨e, he, _, hn, hdt, hin⟩
    · exact absurd hm (by simp [initExplorer, instOf, alookup])
    · exact ⟨e, he, hn.1, hn.2, hdt, hin⟩
  · intro d hd
    rw [mem_akeys_measurements_runEvents] at hd
    rcases hd with hm | ⟨e, he, _, hn, hdt⟩
    · exact absurd hm (by simp [initExplorer, akeys])
    · exact ⟨e, he, hn.1, hn.2, hdt⟩
  · intro d p hp
    rw [mem_akeys_pathsOf_runEvents] at hp
    rcases hp with hm | ⟨e, he, _, hn, hdt, hpp⟩
    · exact absurd hm (by simp [initExplorer, pathsOf, alookup, akeys])
    · exact ⟨e, he, hn.1, hn.2, hdt, hpp⟩

theorem C5_filtering_witness :
    evKeep.topic ∈ akeys stEx.topics :=
  (C5_filtering "venus.local" 8883 "portal1" (some "user") (some "pw") true true
    [evSoc, evYield, evKeep] (by decide)).1
    evKeep (by simp [evSoc, evYield, evKeep]) (by decide)

/-! ## First-character reasoning on interpolated config lines -/

theorem str_data_append (a b : String) : (a ++ b).data = a.data ++ b.data := rfl

theorem ne_of_headC {s t : String} (h : s.data.head? ≠ t.data.head?) : s ≠ t :=
  fun e => h (by rw [e])

theorem headC_append {a : String} (b : String) {c : Char}
    (h : a.data.head? = some c) : (a ++ b).data.head? = some c := by
  rw [str_data_append]
  cases ha : a.data with
  | nil => rw [ha] at h; exact absurd h (by simp)
  | cons x xs =>
    rw [ha] at h
    simpa using h

/-- A line whose first character differs from the target's cannot be the
target line.  Used to discharge every interpolated config line against the
bracketed block headers. -/
theorem ne_lit_of_head {s t : String} {c : Char}
    (h1 : s.data.head? = some c) (h2 : t.data.head? ≠ some c) : s ≠ t :=
  ne_of_headC (by rw [h1]; exact fun he => h2 he.symm)

/-! ## C1: determinism and arrival-order independence -/

/-- **C1 (amended)** — For a fixed final aggregator state *and a fixed
generation timestamp*, both generators are pure functions of that data, and
the output does not depend on the arrival order of the ingested events:
running any permutation of the event trace yields byte-identical configs. -/
theorem C1_order_independence (server : String) (port : Nat) (portal_id : String)
    (username password : Option String) (use_ssl insecure : Bool)
    (evs1 evs2 : List Event) (hperm : List.Perm evs1 evs2) (now_iso : String) :
    generate_telegraf_config (runEvents (initExplorer server port portal_id username
      password use_ssl insecure) evs1) now_iso =
      generate_telegraf_config (runEvents (initExplorer server port portal_id username
        password use_ssl insecure) evs2) now_iso ∧
    generate_optimized_config (runEvents (initExplorer server port portal_id username
      password use_ssl insecure) evs1) now_iso =
      generate_optimized_config (runEvents (initExplorer server port portal_id username
        password use_ssl insecure) evs2) now_iso := by
  obtain ⟨hpat, hkeys, hinst⟩ := sorted_views_eq _
    (stateNodup_init server port portal_id username password use_ssl insecure)
    evs1 evs2 hperm
  obtain ⟨p1, s1, po1, u1, pw1, ss1, in1⟩ := runEvents_const evs1
    (initExplorer server port portal_id username password use_ssl insecure)
  obtain ⟨p2, s2, po2, u2, pw2, ss2, in2⟩ := runEvents_const evs2
    (initExplorer server port portal_id username password use_ssl insecure)
  constructor
  · exact generate_telegraf_config_congr _ _ now_iso (p1.trans p2.symm) (s1.trans s2.symm)
      (po1.trans po2.symm) (u1.trans u2.symm) (pw1.trans pw2.symm) (ss1.trans ss2.symm)
      (in1.trans in2.symm) hpat
  · exact generate_optimized_config_congr _ _ now_iso (p1.trans p2.symm) (s1.trans s2.symm)
      (po1.trans po2.symm) (u1.trans u2.symm) (pw1.trans pw2.symm) (ss1.trans ss2.symm)
      (in1.trans in2.symm) hkeys hinst

theorem C1_order_independence_witness :
    generate_telegraf_config (runEvents stInit [evSoc, evKeep]) "2025-01-01T00:00:00" =
      generate_telegraf_config (runEvents stInit [evKeep, evSoc]) "2025-01-01T00:00:00" :=
  (C1_order_independence "venus.local" 8883 "portal1" (some "user") (some "pw") true true
    [evSoc, evKeep] [evKeep, evSoc] (List.Perm.swap evKeep evSoc [])
    "2025-01-01T00:00:00").1

set_option maxRecDepth 40000 in
/-- **C1 counterexample** — the claim as stated fails: for one and the same
final aggregator state, two invocations at different wall-clock instants give
different bytes, because both generators embed `datetime.now().isoformat()` in
their output header. -/
theorem C1_counterexample :
    generate_telegraf_config stEmpty "2025-01-01T00:00:00" ≠
      generate_telegraf_config stEmpty "2025-01-01T00:00:01" ∧
    generate_optimized_config stEmpty "2025-01-01T00:00:00" ≠
      generate_optimized_config stEmpty "2025-01-01T00:00:01" := by
  constructor <;> decide

/-! ## C2: the payload-decoding contract -/

/-- **C2 (amended)** — decoding falls back to replace-decoded text exactly
when UTF-8 decoding or JSON parsing fails; when the payload parses to a JSON
object, the `value` field is extracted (`None` when absent — not the text
fallback); and when it parses to any non-object JSON value, `payload.get`
raises `AttributeError`, which escapes uncaught. -/
theorem C2_decode_contract (raw : List Nat) :
    (utf8Decode raw = none →
      decodeValue raw = Except.ok (PyVal.vStr (utf8ReplaceDecode raw))) ∧
    (∀ s, utf8Decode raw = some s → jsonLoads s = none →
      decodeValue raw = Except.ok (PyVal.vStr (utf8ReplaceDecode raw))) ∧
    (∀ s kvs, utf8Decode raw = some s → jsonLoads s = some (PyVal.vDict kvs) →
      decodeValue raw = Except.ok (dictGet kvs "value")) ∧
    (∀ s v, utf8Decode raw = some s → jsonLoads s = some v →
      (∀ kvs, v ≠ PyVal.vDict kvs) →
      decodeValue raw = Except.error PyExc.attributeError) := by
  refine ⟨?_, ?_, ?_, ?_⟩
  · intro h
    simp only [decodeValue, decodeTryBody, h]
  · intro s h1 h2
    simp only [decodeValue, decodeTryBody, h1, h2]
  · intro s kvs h1 h2
    simp only [decodeValue, decodeTryBody, h1, h2]
  · intro s v h1 h2 hv
    cases v with
    | vDict kvs => exact absurd rfl (hv kvs)
    | vNone => simp only [decodeValue, decodeTryBody, h1, h2]
    | vBool b => simp only [decodeValue, decodeTryBody, h1, h2]
    | vInt n => simp only [decodeValue, decodeTryBody, h1, h2]
    | vFloat f => simp only [decodeValue, decodeTryBody, h1, h2]
    | vStr t => simp only [decodeValue, decodeTryBody, h1, h2]
    | vList xs => simp only [decodeValue, decodeTryBody, h1, h2]

theorem C2_decode_contract_witness :
    decodeValue (payloadOf "1") = Except.ok (dictGet [("value", PyVal.vInt 1)] "value") :=
  (C2_decode_contract (payloadOf "1")).2.2.1 "\x7b\"value\": 1\x7d"
    [("value", PyVal.vInt 1)] rfl rfl

/-- **C2 counterexample** — the claim as stated fails twice over: the payload
bytes of `123` parse as JSON but raise `AttributeError` (decoding is not
total), and the payload bytes of an object without a `value` field decode to
`None`, not to the whole payload re-decoded as text. -/
theorem C2_counterexample :
    decodeValue (bytesOf "123") = Except.error PyExc.attributeError ∧
    decodeValue [123, 125] = Except.ok PyVal.vNone ∧
    PyVal.vNone ≠ PyVal.vStr (utf8ReplaceDecode [123, 125]) := by
  refine ⟨rfl, rfl, ?_⟩
  intro h
  exact PyVal.noConfusion h

/-! ## C9: graceful degradation on an empty taxonomy -/

/-- **C9** — With an empty registry and taxonomy both generators still return
a complete document (they are total functions): the basic config contains its
ingestion block with an empty topics list (`topics = [` immediately followed
by `]`), and the optimized config is exactly its fixed header (global tags,
agent, output plugin) followed by the transformation section, with zero
per-device-type ingestion blocks. -/
theorem C9_empty_taxonomy (st : VictronMQTTExplorer) (now_iso : String)
    (htop : st.topics = []) (hdev : st.device_types = []) :
    (∃ pre post, generate_telegraf_config_lines st now_iso =
      pre ++ ["  topics = [", "  ]", ""] ++ post ∧
      "[[inputs.mqtt_consumer]]" ∈ pre) ∧
    generate_optimized_config_lines st now_iso =
      optimizedHeader st now_iso ++ optimizedTail ∧
    "[global_tags]" ∈ generate_optimized_config_lines st now_iso ∧
    "[agent]" ∈ generate_optimized_config_lines st now_iso ∧
    "[[outputs.influxdb_v2]]" ∈ generate_optimized_config_lines st now_iso ∧
    "[[processors.rename]]" ∈ generate_optimized_config_lines st now_iso ∧
    "[[inputs.mqtt_consumer]]" ∉ generate_optimized_config_lines st now_iso := by
  have hpat : topicPatterns st = [] := by
    unfold topicPatterns
    rw [htop]
    rfl
  have hopt : generate_optimized_config_lines st now_iso =
      optimizedHeader st now_iso ++ optimizedTail := by
    unfold generate_optimized_config_lines
    rw [hdev]
    simp [akeys, sortStr, List.insertionSort]
  refine ⟨?_, hopt, ?_, ?_, ?_, ?_, ?_⟩
  · refine ⟨["# Telegraf Configuration - Victron Energy",
      "# Auto-generated by victron_mqtt_explorer.py",
      "# Generated: " ++ now_iso,
      "# Portal ID: " ++ st.portal_id,
      ""] ++
      ["[[inputs.mqtt_consumer]]",
       "  servers = [\"" ++ _get_mqtt_url st ++ "\"]",
       "",
       "  client_id = \"telegraf-victron\"",
       "  qos = 0",
       "  connection_timeout = \"30s\"",
       ""] ++ basicUserBlock st ++ sslBlock st,
      ["  data_format = \"json_v2\"",
       "",
       "  [[inputs.mqtt_consumer.json_v2]]",
       "    [[inputs.mqtt_consumer.json_v2.field]]",
       "      path = \"value\"",
       "      rename = \"value\"",
       ""] ++ basicParsingRules, ?_, ?_⟩
    · unfold generate_telegraf_config_lines basicTopicsBlock
      rw [hpat]
      simp [sortStr, List.insertionSort]
    · simp
  · rw [hopt]; simp [optimizedHeader, optimizedTail]
  · rw [hopt]; simp [optimizedHeader, optimizedTail]
  · rw [hopt]; simp [optimizedHeader, optimizedTail]
  · rw [hopt]; simp [optimizedHeader, optimizedTail]
  · rw [hopt]
    intro hmem
    rw [List.mem_append] at hmem
    rcases hmem with hh | ht
    · have hne1 : "# Auto-generated: " ++ now_iso ≠ "[[inputs.mqtt_consumer]]" :=
        @ne_lit_of_head _ _ '#' (headC_append now_iso (by decide)) (by decide)
      have hne2 : "# Portal ID: " ++ st.portal_id ≠ "[[inputs.mqtt_consumer]]" :=
        @ne_lit_of_head _ _ '#' (headC_append st.portal_id (by decide)) (by decide)
      have hne3 : "  portal_id = \"" ++ st.portal_id ++ "\"" ≠ "[[inputs.mqtt_consumer]]" :=
        @ne_lit_of_head _ _ ' ' (headC_append "\"" (headC_append st.portal_id (by decide))) (by decide)
      simp only [optimizedHeader, List.mem_cons] at hh
      rcases hh with h | h | h | h | h | h | h | h | h | h | h | h | h | h | h | h | h |
        h | h | h | h | h | h | h | h | h | h | h | h | h | h | h | h | h
      all_goals first
        | (exact absurd h.symm hne1)
        | (exact absurd h.symm hne2)
        | (exact absurd h.symm hne3)
        | (exact absurd h (by decide))
    · simp only [optimizedTail, List.mem_cons] at ht
      rcases ht with h | h | h | h | h | h | h | h | h | h | h
      all_goals exact absurd h (by decide)

/-! ## C6: structure of the basic config -/

theorem patternOf_eq_some (portal t x : String) :
    patternOf portal t = some x ↔
      (4 ≤ (pySplit t).length ∧ (pySplit t).getD 0 "" = "N") ∧
      x = "N/" ++ portal ++ "/" ++ (pySplit t).getD 2 "" ++ "/#" := by
  unfold patternOf
  by_cases h : 4 ≤ (pySplit t).length ∧ (pySplit t).getD 0 "" = "N"
  · rw [if_pos h]
    simp only [Option.some.injEq, h, true_and]
    exact ⟨fun he => he.symm, fun he => he.symm⟩
  · rw [if_neg h]
    simp only [reduceCtorEq, false_iff, not_and]
    intro h4 _
    exact h h4

/-- Appending the same prefix and suffix around different midsections is
injective in the midsection. -/
theorem strAppend_inj_mid (A S d1 d2 : String) (h : A ++ d1 ++ S = A ++ d2 ++ S) :
    d1 = d2 := by
  have hd : (A ++ d1 ++ S).data = (A ++ d2 ++ S).data := congrArg String.data h
  rw [str_data_append, str_data_append, str_data_append, str_data_append] at hd
  have h1 := List.append_cancel_right hd
  have h2 := List.append_cancel_left h1
  cases d1 with
  | mk a =>
    cases d2 with
    | mk b => exact congrArg String.mk h2

/-- **C6** — The basic config emits its topic list block as the sorted pattern
set; the pattern set contains exactly one wildcard `N/<portal>/<device_type>/#`
per device type observed among the notification topics of the registry (no
duplicates, and patterns of distinct device types are distinct strings); and
the three generic positional topic-parsing rules (5-, 6- and 7-segment topic
forms, mapping segment positions to instance/field/subfield/subfield2
independently of device type) are present — in particular one for every depth
actually observed among those forms. -/
theorem C6_basic_config (st : VictronMQTTExplorer) (now_iso : String) :
    (∃ pre post, generate_telegraf_config_lines st now_iso =
      pre ++ (["  topics = ["] ++
        (sortStr (topicPatterns st)).map (fun p => "    \"" ++ p ++ "\",") ++
        ["  ]", ""]) ++ post) ∧
    (∀ x, x ∈ topicPatterns st ↔
      ∃ t, t ∈ akeys st.topics ∧ 4 ≤ (topicParts t).length ∧
        (topicParts t).getD 0 "" = "N" ∧
        x = "N/" ++ st.portal_id ++ "/" ++ topicDeviceType t ++ "/#") ∧
    (topicPatterns st).Nodup ∧
    (∀ d1 d2 : String,
      "N/" ++ st.portal_id ++ "/" ++ d1 ++ "/#" =
        "N/" ++ st.portal_id ++ "/" ++ d2 ++ "/#" → d1 = d2) ∧
    ("  [[inputs.mqtt_consumer.topic_parsing]]" ∈
        generate_telegraf_config_lines st now_iso ∧
      "    topic = \"N/+/+/+/+\"" ∈ generate_telegraf_config_lines st now_iso ∧
      "    tags = \"_/portal_id/_/instance/field\"" ∈
        generate_telegraf_config_lines st now_iso ∧
      "    topic = \"N/+/+/+/+/+\"" ∈ generate_telegraf_config_lines st now_iso ∧
      "    tags = \"_/portal_id/_/instance/field/subfield\"" ∈
        generate_telegraf_config_lines st now_iso ∧
      "    topic = \"N/+/+/+/+/+/+\"" ∈ generate_telegraf_config_lines st now_iso ∧
      "    tags = \"_/portal_id/_/instance/field/subfield/subfield2\"" ∈
        generate_telegraf_config_lines st now_iso) ∧
    (∀ t, t ∈ akeys st.topics →
      ((topicParts t).length = 5 →
        "    topic = \"N/+/+/+/+\"" ∈ generate_telegraf_config_lines st now_iso) ∧
      ((topicParts t).length = 6 →
        "    topic = \"N/+/+/+/+/+\"" ∈ generate_telegraf_config_lines st now_iso) ∧
      ((topicParts t).length = 7 →
        "    topic = \"N/+/+/+/+/+/+\"" ∈ generate_telegraf_config_lines st now_iso)) := by
  have hmem5 : "    topic = \"N/+/+/+/+\"" ∈ generate_telegraf_config_lines st now_iso := by
    simp [generate_telegraf_config_lines, basicParsingRules]
  have hmem6 : "    topic = \"N/+/+/+/+/+\"" ∈ generate_telegraf_config_lines st now_iso := by
    simp [generate_telegraf_config_lines, basicParsingRules]
  have hmem7 : "    topic = \"N/+/+/+/+/+/+\"" ∈ generate_telegraf_config_lines st now_iso := by
    simp [generate_telegraf_config_lines, basicParsingRules]
  refine ⟨?_, ?_, nodup_topicPatterns st, ?_, ⟨?_, hmem5, ?_, hmem6, ?_, hmem7, ?_⟩, ?_⟩
  · refine ⟨["# Telegraf Configuration - Victron Energy",
      "# Auto-generated by victron_mqtt_explorer.py",
      "# Generated: " ++ now_iso,
      "# Portal ID: " ++ st.portal_id,
      ""] ++
      ["[[inputs.mqtt_consumer]]",
       "  servers = [\"" ++ _get_mqtt_url st ++ "\"]",
       "",
       "  client_id = \"telegraf-victron\"",
       "  qos = 0",
       "  connection_timeout = \"30s\"",
       ""] ++ basicUserBlock st ++ sslBlock st,
      ["  data_format = \"json_v2\"",
       "",
       "  [[inputs.mqtt_consumer.json_v2]]",
       "    [[inputs.mqtt_consumer.json_v2.field]]",
       "      path = \"value\"",
       "      rename = \"value\"",
       ""] ++ basicParsingRules, ?_⟩
    unfold generate_telegraf_config_lines basicTopicsBlock
    simp [List.append_assoc]
  · intro x
    rw [mem_topicPatterns]
    constructor
    · rintro ⟨t, ht, htx⟩
      rw [patternOf_eq_some] at htx
      exact ⟨t, ht, htx.1.1, htx.1.2, htx.2⟩
    · rintro ⟨t, ht, h4, hN, hx⟩
      refine ⟨t, ht, ?_⟩
      rw [patternOf_eq_some]
      exact ⟨⟨h4, hN⟩, hx⟩
  · intro d1 d2 h
    have h' : ("N/" ++ st.portal_id ++ "/") ++ d1 ++ "/#" =
        ("N/" ++ st.portal_id ++ "/") ++ d2 ++ "/#" := by
      rw [show ("N/" ++ st.portal_id ++ "/") ++ d1 = "N/" ++ st.portal_id ++ "/" ++ d1 from rfl,
        show ("N/" ++ st.portal_id ++ "/") ++ d2 = "N/" ++ st.portal_id ++ "/" ++ d2 from rfl]
      exact h
    exact strAppend_inj_mid _ _ _ _ h'
  · simp [generate_telegraf_config_lines, basicParsingRules]
  · simp [generate_telegraf_config_lines, basicParsingRules]
  · simp [generate_telegraf_config_lines, basicParsingRules]
  · simp [generate_telegraf_config_lines, basicParsingRules]
  · intro t _
    exact ⟨fun _ => hmem5, fun _ => hmem6, fun _ => hmem7⟩

theorem C6_basic_config_witness :
    "    topic = \"N/+/+/+/+\"" ∈
      generate_telegraf_config_lines stEx "2025-01-01T00:00:00" :=
  (((C6_basic_config stEx "2025-01-01T00:00:00").2.2.2.2.2) evSoc.topic
    (by decide)).1 (by decide)

/-! ## C7: structure of the optimized config -/

theorem countLine_nil (t : String) : countLine t [] = 0 := rfl

theorem countLine_cons (t s : String) (l : List String) :
    countLine t (s :: l) = (if s = t then 1 else 0) + countLine t l := by
  unfold countLine
  by_cases h : s = t
  · simp [List.filter_cons, h]
    omega
  · simp [List.filter_cons, h]

theorem countLine_append (t : String) (l1 l2 : List String) :
    countLine t (l1 ++ l2) = countLine t l1 + countLine t l2 := by
  unfold countLine
  rw [List.filter_append, List.length_append]

theorem countLine_eq_zero_of_head (t : String) (c : Char) (ht : t.data.head? = some c) :
    ∀ l : List String, (∀ s ∈ l, s.data.head? ≠ some c) → countLine t l = 0 := by
  intro l
  induction l with
  | nil => intro _; rfl
  | cons s ss ih =>
    intro hall
    rw [countLine_cons, if_neg, ih (fun x hx => hall x (List.mem_cons_of_mem s hx))]
    intro he
    exact hall s (List.mem_cons_self s ss) (he ▸ ht)

theorem countLine_flatMap_one (t : String) :
    ∀ (l : List String) (f : String → List String),
      (∀ x ∈ l, countLine t (f x) = 1) → countLine t (l.flatMap f) = l.length := by
  intro l
  induction l with
  | nil => intro f _; rfl
  | cons x xs ih =>
    intro f h
    rw [List.flatMap_cons, countLine_append, h x (List.mem_cons_self x xs),
      ih f (fun y hy => h y (List.mem_cons_of_mem x hy)), List.length_cons]
    omega

theorem countLine_flatMap_zero (t : String) :
    ∀ (l : List String) (f : String → List String),
      (∀ x ∈ l, countLine t (f x) = 0) → countLine t (l.flatMap f) = 0 := by
  intro l
  induction l with
  | nil => intro f _; rfl
  | cons x xs ih =>
    intro f h
    rw [List.flatMap_cons, countLine_append, h x (List.mem_cons_self x xs),
      ih f (fun y hy => h y (List.mem_cons_of_mem x hy))]

/-- Every line of the fixed optimized-config header is one of the three
section heads or does not begin with `[`. -/
theorem mem_optimizedHeader_cases (st : VictronMQTTExplorer) (now_iso t : String)
    (h : t ∈ optimizedHeader st now_iso) :
    t = "[global_tags]" ∨ t = "[agent]" ∨ t = "[[outputs.influxdb_v2]]" ∨
      t.data.head? ≠ some '[' := by
  simp only [optimizedHeader, List.mem_cons] at h
  rcases h with h|h|h|h|h|h|h|h|h|h|h|h|h|h|h|h|h|h|h|h|h|h|h|h|h|h|h|h|h|h|h|h|h|h
  all_goals first
    | (exact Or.inl h)
    | (exact Or.inr (Or.inl h))
    | (exact Or.inr (Or.inr (Or.inl h)))
    | (exact Or.inr (Or.inr (Or.inr (by rw [h]; decide))))
    | (exact Or.inr (Or.inr (Or.inr (by
        rw [h, @headC_append "# Auto-generated: " now_iso '#' (by decide)]
        decide))))
    | (exact Or.inr (Or.inr (Or.inr (by
        rw [h, @headC_append "# Portal ID: " st.portal_id '#' (by decide)]
        decide))))
    | (exact Or.inr (Or.inr (Or.inr (by
        rw [h, @headC_append _ "\"" ' '
          (@headC_append "  portal_id = \"" st.portal_id ' ' (by decide))]
        decide))))
    | (exact absurd h (List.not_mem_nil t))

theorem mem_basicUserBlock_head (st : VictronMQTTExplorer) (t : String)
    (h : t ∈ basicUserBlock st) : t.data.head? ≠ some '[' := by
  unfold basicUserBlock at h
  by_cases hc : truthyStr st.username = true
  · rw [if_pos hc] at h
    rcases List.mem_cons.mp h with h1 | h2
    · rw [h1, @headC_append _ "\"" ' '
        (@headC_append "  username = \"" (strOfOpt st.username) ' ' (by decide))]
      decide
    · rcases List.mem_cons.mp h2 with h3 | h4
      · rw [h3, @headC_append _ "\"" ' '
          (@headC_append "  password = \"" (strOfOpt st.password) ' ' (by decide))]
        decide
      · rcases List.mem_cons.mp h4 with h5 | h6
        · rw [h5]; decide
        · exact absurd h6 (List.not_mem_nil t)
  · rw [if_neg hc] at h
    exact absurd h (List.not_mem_nil t)

theorem mem_sslBlock_head (st : VictronMQTTExplorer) (t : String)
    (h : t ∈ sslBlock st) : t.data.head? ≠ some '[' := by
  unfold sslBlock at h
  by_cases hc : (st.use_ssl && st.insecure) = true
  · rw [if_pos hc] at h
    rcases List.mem_cons.mp h with h1 | h2
    · rw [h1]; decide
    · rcases List.mem_cons.mp h2 with h3 | h4
      · rw [h3]; decide
      · exact absurd h4 (List.not_mem_nil t)
  · rw [if_neg hc] at h
    exact absurd h (List.not_mem_nil t)

/-- One optimized device block contains the `[[inputs.mqtt_consumer]]` opener
exactly once and no `[[processors.rename]]` line. -/
theorem countLine_optimizedDeviceBlock (st : VictronMQTTExplorer) (d : String) :
    countLine "[[inputs.mqtt_consumer]]" (optimizedDeviceBlock st d) = 1 ∧
    countLine "[[processors.rename]]" (optimizedDeviceBlock st d) = 0 := by
  have hbanner : ∀ t : String, t.data.head? = some '[' →
      countLine t (basicUserBlock st) = 0 ∧ countLine t (sslBlock st) = 0 := by
    intro t ht
    exact ⟨countLine_eq_zero_of_head t '[' ht _ (fun s hs => mem_basicUserBlock_head st s hs),
      countLine_eq_zero_of_head t '[' ht _ (fun s hs => mem_sslBlock_head st s hs)⟩
  have hA1 : ("# " ++ pyUpper d ++ " - instances: " ++
      String.intercalate ", " (sortStr (instOf st.device_types d))).data.head? = some '#' :=
    @headC_append _ _ '#'
      (@headC_append _ _ '#' (@headC_append "# " (pyUpper d) '#' (by decide)))
  have hA3 : ("  name_override = \"" ++ d ++ "\"").data.head? = some ' ' :=
    @headC_append _ "\"" ' ' (@headC_append "  name_override = \"" d ' ' (by decide))
  have hA4 : ("  servers = [\"" ++ _get_mqtt_url st ++ "\"]").data.head? = some ' ' :=
    @headC_append _ "\"]" ' '
      (@headC_append "  servers = [\"" (_get_mqtt_url st) ' ' (by decide))
  have hA5 : ("  client_id = \"telegraf-victron-" ++ d ++ "\"").data.head? = some ' ' :=
    @headC_append _ "\"" ' '
      (@headC_append "  client_id = \"telegraf-victron-" d ' ' (by decide))
  have hB2 : ("    \"N/" ++ st.portal_id ++ "/" ++ d ++ "/#\",").data.head? = some ' ' :=
    @headC_append _ "/#\"," ' ' (@headC_append _ d ' '
      (@headC_append _ "/" ' ' (@headC_append "    \"N/" st.portal_id ' ' (by decide))))
  have hAc : countLine "[[inputs.mqtt_consumer]]"
      ["# " ++ pyUpper d ++ " - instances: " ++
          String.intercalate ", " (sortStr (instOf st.device_types d)),
         "[[inputs.mqtt_consumer]]",
         "  name_override = \"" ++ d ++ "\"",
         "  servers = [\"" ++ _get_mqtt_url st ++ "\"]",
         "  client_id = \"telegraf-victron-" ++ d ++ "\"",
         "  qos = 0",
         ""] = 1 := by
    rw [countLine_cons, countLine_cons, countLine_cons, countLine_cons, countLine_cons,
        countLine_cons, countLine_cons, countLine_nil]
    rw [if_neg (ne_lit_of_head hA1 (by decide)), if_pos rfl,
      if_neg (ne_lit_of_head hA3 (by decide)), if_neg (ne_lit_of_head hA4 (by decide)),
      if_neg (ne_lit_of_head hA5 (by decide))]
    decide
  have hAr : countLine "[[processors.rename]]"
      ["# " ++ pyUpper d ++ " - instances: " ++
          String.intercalate ", " (sortStr (instOf st.device_types d)),
         "[[inputs.mqtt_consumer]]",
         "  name_override = \"" ++ d ++ "\"",
         "  servers = [\"" ++ _get_mqtt_url st ++ "\"]",
         "  client_id = \"telegraf-victron-" ++ d ++ "\"",
         "  qos = 0",
         ""] = 0 := by
    rw [countLine_cons, countLine_cons, countLine_cons, countLine_cons, countLine_cons,
        countLine_cons, countLine_cons, countLine_nil]
    rw [if_neg (ne_lit_of_head hA1 (by decide)),
      if_neg (ne_lit_of_head hA3 (by decide)), if_neg (ne_lit_of_head hA4 (by decide)),
      if_neg (ne_lit_of_head hA5 (by decide))]
    decide
  have hBc : countLine "[[inputs.mqtt_consumer]]"
      ["  topics = [",
         "    \"N/" ++ st.portal_id ++ "/" ++ d ++ "/#\",",
         "  ]",
         "",
         "  data_format = \"json_v2\"",
         "",
         "  [[inputs.mqtt_consumer.json_v2]]",
         "    [[inputs.mqtt_consumer.json_v2.field]]",
         "      path = \"value\"",
         "",
         "  # Parse instance from topic",
         "  [[inputs.mqtt_consumer.topic_parsing]]",
         "    topic = \"N/+/+/+/+\"",
         "    tags = \"_/_/_/instance/field\"",
         "",
         "  [[inputs.mqtt_consumer.topic_parsing]]",
         "    topic = \"N/+/+/+/+/+\"",
         "    tags = \"_/_/_/instance/field/subfield\"",
         ""] = 0 := by
    rw [countLine_cons, countLine_cons, countLine_cons, countLine_cons, countLine_cons,
        countLine_cons, countLine_cons, countLine_cons, countLine_cons, countLine_cons,
        countLine_cons, countLine_cons, countLine_cons, countLine_cons, countLine_cons,
        countLine_cons, countLine_cons, countLine_cons, countLine_cons, countLine_nil]
    rw [if_neg (ne_lit_of_head hB2 (by decide))]
    decide
  have hBr : countLine "[[processors.rename]]"
      ["  topics = [",
         "    \"N/" ++ st.portal_id ++ "/" ++ d ++ "/#\",",
         "  ]",
         "",
         "  data_format = \"json_v2\"",
         "",
         "  [[inputs.mqtt_consumer.json_v2]]",
         "    [[inputs.mqtt_consumer.json_v2.field]]",
         "      path = \"value\"",
         "",
         "  # Parse instance from topic",
         "  [[inputs.mqtt_consumer.topic_parsing]]",
         "    topic = \"N/+/+/+/+\"",
         "    tags = \"_/_/_/instance/field\"",
         "",
         "  [[inputs.mqtt_consumer.topic_parsing]]",
         "    topic = \"N/+/+/+/+/+\"",
         "    tags = \"_/_/_/instance/field/subfield\"",
         ""] = 0 := by
    rw [countLine_cons, countLine_cons, countLine_cons, countLine_cons, countLine_cons,
        countLine_cons, countLine_cons, countLine_cons, countLine_cons, countLine_cons,
        countLine_cons, countLine_cons, countLine_cons, countLine_cons, countLine_cons,
        countLine_cons, countLine_cons, countLine_cons, countLine_cons, countLine_nil]
    rw [if_neg (ne_lit_of_head hB2 (by decide))]
    decide
  constructor
  · unfold optimizedDeviceBlock
    rw [countLine_append, countLine_append, countLine_append, hAc,
      (hbanner "[[inputs.mqtt_consumer]]" (by decide)).1,
      (hbanner "[[inputs.mqtt_consumer]]" (by decide)).2, hBc]
  · unfold optimizedDeviceBlock
    rw [countLine_append, countLine_append, countLine_append, hAr,
      (hbanner "[[processors.rename]]" (by decide)).1,
      (hbanner "[[processors.rename]]" (by decide)).2, hBr]

theorem countLine_eq_zero_of_not_mem (t : String) :
    ∀ l : List String, t ∉ l → countLine t l = 0 := by
  intro l
  induction l with
  | nil => intro _; rfl
  | cons s ss ih =>
    intro h
    rw [countLine_cons, if_neg (fun he => h (List.mem_cons.mpr (Or.inl he.symm))),
      ih (fun hm => h (List.mem_cons_of_mem s hm))]

theorem consumer_notin_optimizedHeader (st : VictronMQTTExplorer) (now_iso : String) :
    "[[inputs.mqtt_consumer]]" ∉ optimizedHeader st now_iso := by
  intro hm
  rcases mem_optimizedHeader_cases st now_iso _ hm with h | h | h | h
  · exact absurd h (by decide)
  · exact absurd h (by decide)
  · exact absurd h (by decide)
  · exact h (by decide)

theorem rename_notin_optimizedHeader (st : VictronMQTTExplorer) (now_iso : String) :
    "[[processors.rename]]" ∉ optimizedHeader st now_iso := by
  intro hm
  rcases mem_optimizedHeader_cases st now_iso _ hm with h | h | h | h
  · exact absurd h (by decide)
  · exact absurd h (by decide)
  · exact absurd h (by decide)
  · exact h (by decide)

/-- **C7** — The optimized config is the fixed header, then one isolated
ingestion block per device type of the Taxonomy in sorted key order, then the
transformation section: the `[[inputs.mqtt_consumer]]` block opener appears
exactly once per device type; every device type contributes a subscription
wildcard scoped to it and a per-type client identity (distinct for distinct
device types); and the `[[processors.rename]]` transformation rule appears
exactly once, only after all ingestion blocks. -/
theorem C7_optimized_config (st : VictronMQTTExplorer) (now_iso : String) :
    generate_optimized_config_lines st now_iso =
      optimizedHeader st now_iso ++
        (sortStr (akeys st.device_types)).flatMap (optimizedDeviceBlock st) ++
        optimizedTail ∧
    countLine "[[inputs.mqtt_consumer]]" (generate_optimized_config_lines st now_iso) =
      (akeys st.device_types).length ∧
    (∀ d, d ∈ akeys st.device_types →
      ("  client_id = \"telegraf-victron-" ++ d ++ "\"") ∈
        generate_optimized_config_lines st now_iso ∧
      ("    \"N/" ++ st.portal_id ++ "/" ++ d ++ "/#\",") ∈
        generate_optimized_config_lines st now_iso) ∧
    (∀ d1 d2 : String, d1 ≠ d2 →
      ("  client_id = \"telegraf-victron-" ++ d1 ++ "\"") ≠
        ("  client_id = \"telegraf-victron-" ++ d2 ++ "\"")) ∧
    countLine "[[processors.rename]]" (generate_optimized_config_lines st now_iso) = 1 ∧
    (∃ pre, generate_optimized_config_lines st now_iso = pre ++ optimizedTail ∧
      countLine "[[processors.rename]]" pre = 0) := by
  have hdecomp : generate_optimized_config_lines st now_iso =
      optimizedHeader st now_iso ++
        (sortStr (akeys st.device_types)).flatMap (optimizedDeviceBlock st) ++
        optimizedTail := rfl
  refine ⟨hdecomp, ?_, ?_, ?_, ?_, ?_⟩
  · rw [hdecomp, countLine_append, countLine_append,
      countLine_eq_zero_of_not_mem _ _ (consumer_notin_optimizedHeader st now_iso),
      countLine_flatMap_one _ _ _
        (fun d _ => (countLine_optimizedDeviceBlock st d).1),
      show countLine "[[inputs.mqtt_consumer]]" optimizedTail = 0 from by decide,
      (sortStr_perm (akeys st.device_types)).length_eq]
    omega
  · intro d hd
    have hd' : d ∈ sortStr (akeys st.device_types) :=
      (sortStr_perm (akeys st.device_types)).mem_iff.mpr hd
    constructor
    · rw [hdecomp]
      refine List.mem_append.mpr (Or.inl (List.mem_append.mpr (Or.inr ?_)))
      refine List.mem_flatMap.mpr ⟨d, hd', ?_⟩
      simp [optimizedDeviceBlock]
    · rw [hdecomp]
      refine List.mem_append.mpr (Or.inl (List.mem_append.mpr (Or.inr ?_)))
      refine List.mem_flatMap.mpr ⟨d, hd', ?_⟩
      simp [optimizedDeviceBlock]
  · intro d1 d2 hne he
    exact hne (strAppend_inj_mid "  client_id = \"telegraf-victron-" "\"" d1 d2 he)
  · rw [hdecomp, countLine_append, countLine_append,
      countLine_eq_zero_of_not_mem _ _ (rename_notin_optimizedHeader st now_iso),
      countLine_flatMap_zero _ _ _
        (fun d _ => (countLine_optimizedDeviceBlock st d).2),
      show countLine "[[processors.rename]]" optimizedTail = 1 from by decide]
  · refine ⟨optimizedHeader st now_iso ++
      (sortStr (akeys st.device_types)).flatMap (optimizedDeviceBlock st), hdecomp, ?_⟩
    rw [countLine_append,
      countLine_eq_zero_of_not_mem _ _ (rename_notin_optimizedHeader st now_iso),
      countLine_flatMap_zero _ _ _
        (fun d _ => (countLine_optimizedDeviceBlock st d).2)]

theorem C7_optimized_config_witness :
    ("  client_id = \"telegraf-victron-" ++ "battery" ++ "\"") ∈
      generate_optimized_config_lines stEx "2025-01-01T00:00:00" :=
  ((C7_optimized_config stEx "2025-01-01T00:00:00").2.2.1 "battery" (by decide)).1

theorem C9_empty_taxonomy_witness :
    "[[processors.rename]]" ∈ generate_optimized_config_lines stEmpty "2025-01-01T00:00:00" :=
  (C9_empty_taxonomy stEmpty "2025-01-01T00:00:00" rfl rfl).2.2.2.2.2.1

/-! ## C8: the report grouping refines its spec-side restatement -/

theorem mem_foldl_setAdd {α : Type} [DecidableEq α] :
    ∀ (l init : List α) (x : α), x ∈ l.foldl setAdd init ↔ x ∈ init ∨ x ∈ l := by
  intro l
  induction l with
  | nil => intro init x; simp
  | cons a as ih =>
    intro init x
    simp only [List.foldl_cons, ih, mem_setAdd, List.mem_cons]
    tauto

theorem nodup_foldl_setAdd {α : Type} [DecidableEq α] :
    ∀ (l init : List α), init.Nodup → (l.foldl setAdd init).Nodup := by
  intro l
  induction l with
  | nil => intro init h; exact h
  | cons a as ih => intro init h; exact ih _ (nodup_setAdd a h)

theorem mlistAppend_map_mem {β : Type} (G : String → List β) (ka : String) (v : β) :
    ∀ keys : List String, keys.Nodup → ka ∈ keys →
      mlistAppend (keys.map (fun k => (k, G k))) ka v =
        keys.map (fun k => (k, G k ++ if k = ka then [v] else [])) := by
  intro keys
  induction keys with
  | nil => intro _ hm; exact absurd hm (List.not_mem_nil ka)
  | cons k ks ih =>
    intro hnd hmem
    by_cases hk : k = ka
    · subst hk
      have hks : k ∉ ks := (List.nodup_cons.mp hnd).1
      simp only [List.map_cons, mlistAppend, ite_true, eq_self_iff_true]
      congr 1
      refine List.map_congr_left ?_
      intro k' hk'
      have hne : k' ≠ k := fun he => hks (he ▸ hk')
      rw [if_neg hne, List.append_nil]
    · have hmem' : ka ∈ ks := (List.mem_cons.mp hmem).resolve_left (fun he => hk he.symm)
      simp only [List.map_cons, mlistAppend, if_neg hk, List.append_nil]
      rw [ih (List.nodup_cons.mp hnd).2 hmem']

theorem mlistAppend_map_notmem {β : Type} (G : String → List β) (ka : String) (v : β) :
    ∀ keys : List String, ka ∉ keys →
      mlistAppend (keys.map (fun k => (k, G k))) ka v =
        keys.map (fun k => (k, G k)) ++ [(ka, [v])] := by
  intro keys
  induction keys with
  | nil => intro _; rfl
  | cons k ks ih =>
    intro hm
    have hne : k ≠ ka := fun he => hm (he ▸ List.mem_cons_self k ks)
    simp only [List.map_cons, mlistAppend, if_neg hne, List.cons_append]
    rw [ih (fun hc => hm (List.mem_cons_of_mem k hc))]

theorem fold_mlistAppend_eq {β : Type} (f : String → String) (h : String → β) :
    ∀ l : List String,
      l.foldl (fun g p => mlistAppend g (f p) (h p)) [] =
        (dedupFirst (l.map f)).map
          (fun k => (k, (l.filter (fun p => f p = k)).map h)) := by
  intro l
  induction l using List.reverseRecOn with
  | nil => rfl
  | append_singleton l a ih =>
    rw [List.foldl_append, List.foldl_cons, List.foldl_nil, ih]
    have hded : dedupFirst ((l ++ [a]).map f) =
        setAdd (dedupFirst (l.map f)) (f a) := by
      unfold dedupFirst
      rw [List.map_append, List.foldl_append, List.map_cons, List.map_nil,
        List.foldl_cons, List.foldl_nil]
    rw [hded]
    by_cases hmem : f a ∈ dedupFirst (l.map f)
    · have hnd : (dedupFirst (l.map f)).Nodup :=
        nodup_foldl_setAdd (l.map f) [] List.nodup_nil
      rw [show setAdd (dedupFirst (l.map f)) (f a) = dedupFirst (l.map f) from by
        unfold setAdd; rw [if_pos hmem]]
      rw [mlistAppend_map_mem (fun k => (l.filter (fun p => f p = k)).map h)
        (f a) (h a) (dedupFirst (l.map f)) hnd hmem]
      refine List.map_congr_left ?_
      intro k hkD
      by_cases hk : k = f a
      · subst hk
        simp [List.filter_append, List.filter]
      · have hk' : ¬ (f a = k) := fun he => hk he.symm
        simp [List.filter_append, List.filter, hk, hk']
    · have hmf : f a ∉ l.map f := fun hc =>
        hmem ((mem_foldl_setAdd (l.map f) [] (f a)).mpr (Or.inr hc))
      rw [show setAdd (dedupFirst (l.map f)) (f a) =
          dedupFirst (l.map f) ++ [f a] from by
        unfold setAdd; rw [if_neg hmem]]
      rw [mlistAppend_map_notmem (fun k => (l.filter (fun p => f p = k)).map h)
        (f a) (h a) (dedupFirst (l.map f)) hmem]
      rw [List.map_append]
      have hD : (dedupFirst (l.map f)).map
            (fun k => (k, (l.filter (fun p => f p = k)).map h)) =
          (dedupFirst (l.map f)).map
            (fun k => (k, ((l ++ [a]).filter (fun p => f p = k)).map h)) := by
        refine List.map_congr_left ?_
        intro k hkD
        have hkl : k ∈ l.map f :=
          ((mem_foldl_setAdd (l.map f) [] k).mp hkD).resolve_left
            (fun hc => absurd hc (List.not_mem_nil k))
        have hk' : ¬ (f a = k) := fun he => hmf (he ▸ hkl)
        simp [List.filter_append, List.filter, hk']
      rw [hD]
      congr 1
      have hfl : l.filter (fun p => f p = f a) = [] := by
        rw [List.filter_eq_nil_iff]
        intro p hp
        simp only [decide_eq_true_eq]
        exact fun he => hmf (he ▸ List.mem_map_of_mem f hp)
      simp [List.filter_append, List.filter, hfl]

theorem groupKey_eq_specGroupKey : groupKey = specGroupKey := by
  funext p
  by_cases h : p = "" <;> simp [groupKey, specGroupKey, h]

theorem groupedPaths_eq_specGroups (paths : List (String × List String)) :
    groupedPaths paths = specGroups paths := by
  unfold groupedPaths specGroups
  rw [groupKey_eq_specGroupKey]
  exact fold_mlistAppend_eq specGroupKey (fun p => (p, instOf paths p))
    (sortStr (akeys paths))

/-- **C8** — In the measurement-structure section, each device type's field
paths are grouped by their first path segment (the empty path under the
literal `(root)` key): the printed section equals the spec-side restatement in
which each group collects exactly the sorted paths sharing that first segment
with their kind-tag sets, a group of 5 or fewer entries lists every path with
its set of observed kind tags, and a larger group collapses to a single
summary line reporting only the entry count. -/
theorem C8_report_grouping
    (measurements : List (String × List (String × List String))) :
    measurementSectionLines measurements = specMeasurementSection measurements := by
  unfold measurementSectionLines specMeasurementSection
  refine congrArg _ (funext fun device_type => ?_)
  simp only [groupedPaths_eq_specGroups]
  rfl

end Victron
